import Mathlib

/-!
# db-backup-operator: the backup job driver and the job cleanup collector

A shallow embedding of the two reconcilers of the operator,
`BackupDatabaseSchemaReconciler.Reconcile`
(internal/controller/backupdatabaseschema_controller.go) and
`JobCleanupReconciler.Reconcile` (internal/controller/jobcleanup_controller.go),
together with the API types of api/v1/backupdatabaseschema_types.go.

The object store behind `client.Client` is external to the repository.  It is a
parameter of both reconcilers: a `Platform σ` gives, for a world state `σ`, the
answer and the next world state of every client call the code makes.  Each
reconciler returns its `ctrl.Result`, its error, the list of client calls it
issued (in order) and the final world state.  The objects carry the fields the
code reads or writes; server-populated metadata (resourceVersion, uid, ...) is
outside the object model, so a successful Create/Update leaves the in-memory
object as it was sent.
-/

namespace DbBackupOperator

/-! ## Errors -/

/-- Errors returned by the object store client: the NotFound status, or any
other failure (conflict, already exists, network, ...). -/
inductive Err where
  | notFound (msg : String)
  | other (msg : String)
deriving DecidableEq, Repr

/-- The function `errors.IsNotFound` of apimachinery. -/
def errors.IsNotFound : Err → Bool
  | .notFound _ => true
  | .other _ => false

/-! ## time -/

/-- Seconds since the Unix epoch (UTC). -/
abbrev Time := Nat

/-- A `time.Duration`, in nanoseconds. -/
abbrev Duration := Nat

def time.Nanosecond : Duration := 1
def time.Microsecond : Duration := 1000 * time.Nanosecond
def time.Millisecond : Duration := 1000 * time.Microsecond
def time.Second : Duration := 1000 * time.Millisecond
def time.Minute : Duration := 60 * time.Second

/-- Decimal rendering of `n`, left-padded with zeros to at least `w` digits. -/
def zeroPad (w n : Nat) : String :=
  let d := toString n
  String.mk (List.replicate (w - d.length) '0') ++ d

/-- Proleptic Gregorian (year, month, day) of a day count since 1970-01-01. -/
def civilFromDays (days : Nat) : Nat × Nat × Nat :=
  let z := days + 719468
  let era := z / 146097
  let doe := z % 146097
  let yoe := (doe - doe / 1460 + doe / 36524 - doe / 146096) / 365
  let doy := doe - (365 * yoe + yoe / 4 - yoe / 100)
  let mp := (5 * doy + 2) / 153
  let d := doy - (153 * mp + 2) / 5 + 1
  let m := if mp < 10 then mp + 3 else mp - 9
  let y := yoe + era * 400
  (if m ≤ 2 then y + 1 else y, m, d)

/-- The call `t.UTC().Format("20060102-150405")`. -/
def formatTimestamp (t : Time) : String :=
  let (y, m, d) := civilFromDays (t / 86400)
  let r := t % 86400
  zeroPad 4 y ++ zeroPad 2 m ++ zeroPad 2 d ++ "-" ++
    zeroPad 2 (r / 3600) ++ zeroPad 2 (r % 3600 / 60) ++ zeroPad 2 (r % 60)

/-- The call `fmt.Sprintf("%d", n)` on a Go `int`. -/
def sprintfD (n : Int) : String := toString n

/-! ## API objects -/

/-- The type `types.NamespacedName` (also `client.ObjectKey`). -/
structure NamespacedName where
  Namespace : String
  Name : String
deriving DecidableEq, Repr

/-- The fields of `metav1.ObjectMeta` used by the operator.  `Labels` is the
Go map as an association list; the nil and the empty slice of `Finalizers` are
both the empty list. -/
structure ObjectMeta where
  Name : String
  Namespace : String
  Labels : List (String × String) := []
  Finalizers : List String := []
deriving DecidableEq, Repr

/-- The value and presence flag of a Go map lookup `m[k]`. -/
def mapLookup (m : List (String × String)) (k : String) : Option String :=
  m.lookup k

structure BackupDatabaseSchemaSpec where
  DbHost : String
  DbUser : String
  DbPasswordSecretName : String
  DbPasswordSecretNamespace : String
  DbPasswordSecretKey : String
  DbName : String
  DbSchema : String
  DbPort : Int
  GcsBucket : String
  KubeServiceAccount : String
  GcpServiceAccount : String
  BackupJobNamespace : String
deriving DecidableEq, Repr

/-- The type `BackupStatusType` is a string. -/
abbrev BackupStatusType := String

def BackupStatusRunning : BackupStatusType := "Running"
def BackupStatusSuccess : BackupStatusType := "Success"
def BackupStatusFailed : BackupStatusType := "Failed"

structure BackupDatabaseSchemaStatus where
  LastBackupTime : Option Time := none
  BackupLocation : Option String := none
  Status : BackupStatusType := ""
  JobName : String := ""
deriving DecidableEq, Repr

structure BackupDatabaseSchema extends ObjectMeta where
  Spec : BackupDatabaseSchemaSpec
  Status : BackupDatabaseSchemaStatus := {}
deriving DecidableEq, Repr

structure SecretKeySelector where
  Name : String
  Key : String
deriving DecidableEq, Repr

structure EnvVarSource where
  SecretKeyRef : Option SecretKeySelector := none
deriving DecidableEq, Repr

structure EnvVar where
  Name : String
  Value : String := ""
  ValueFrom : Option EnvVarSource := none
deriving DecidableEq, Repr

structure Container where
  Name : String
  Image : String
  Command : List String
  Env : List EnvVar
deriving DecidableEq, Repr

structure PodSpec where
  ServiceAccountName : String
  Containers : List Container
  RestartPolicy : String
deriving DecidableEq, Repr

structure PodTemplateSpec where
  Spec : PodSpec
deriving DecidableEq, Repr

structure JobSpec where
  Template : PodTemplateSpec
deriving DecidableEq, Repr

/-- The int32 counters of `batchv1.JobStatus`. -/
structure JobStatus where
  Active : Int := 0
  Succeeded : Int := 0
  Failed : Int := 0
deriving DecidableEq, Repr

structure Job extends ObjectMeta where
  Spec : JobSpec
  Status : JobStatus := {}
deriving DecidableEq, Repr

structure Pod extends ObjectMeta where
deriving DecidableEq, Repr

/-- The method `SetFinalizers` of `metav1.Object`. -/
def Job.SetFinalizers (job : Job) (finalizers : List String) : Job :=
  { job with Finalizers := finalizers }

structure LabelSelector where
  MatchLabels : List (String × String)
deriving DecidableEq, Repr

/-- A `labels.Selector` built from equality requirements. -/
structure Selector where
  Requirements : List (String × String)
deriving DecidableEq, Repr

structure ListOptions where
  LabelSelector : Selector
  Namespace : String
deriving DecidableEq, Repr

structure Request where
  NamespacedName : NamespacedName
deriving DecidableEq, Repr

/-- The type `ctrl.Result`. -/
structure Result where
  Requeue : Bool := false
  RequeueAfter : Duration := 0
deriving DecidableEq, Repr

/-! ## The platform -/

/-- One client call, with its argument. -/
inductive Op where
  | getBackup (key : NamespacedName)
  | getJob (key : NamespacedName)
  | createJob (job : Job)
  | statusUpdate (backup : BackupDatabaseSchema)
  | listPods (opts : ListOptions)
  | deletePod (pod : Pod)
  | updateJob (job : Job)
  | deleteJob (job : Job)
deriving DecidableEq, Repr

/-- The external collaborators of the reconcilers over a world state `σ`: the
calls of `client.Client` (each returns its answer and the next world state), the
clock, and the selector conversion of apimachinery. -/
structure Platform (σ : Type) where
  GetBackup : NamespacedName → σ → Except Err BackupDatabaseSchema × σ
  GetJob : NamespacedName → σ → Except Err Job × σ
  CreateJob : Job → σ → Option Err × σ
  StatusUpdate : BackupDatabaseSchema → σ → Option Err × σ
  ListPods : ListOptions → σ → Except Err (List Pod) × σ
  DeletePod : Pod → σ → Option Err × σ
  UpdateJob : Job → σ → Option Err × σ
  DeleteJob : Job → σ → Option Err × σ
  Now : σ → Time
  LabelSelectorAsSelector : LabelSelector → Except Err Selector

/-- What one reconcile does: the returned `ctrl.Result` and error, the client
calls issued in order, and the world state it leaves. -/
structure Outcome (σ : Type) where
  result : Result
  err : Option Err
  trace : List Op
  state : σ

/-! ## The backup job driver -/

/-- The local `finalizerName` of the driver. -/
def finalizerName : String := "backup.csyeteam03.xyz/finalizer"

/-- The shell script run by the `pg-dump` container. -/
def backupScript : String :=
  "set -e\n" ++
  "\t\t\t\t\t\t\t\t\tapt-get update && apt-get install -y curl gnupg && \\\n" ++
  "\t\t\t\t\t\t\t\t\tcurl -fsSL https://packages.cloud.google.com/apt/doc/apt-key.gpg | apt-key add - && \\\n" ++
  "\t\t\t\t\t\t\t\t\techo \"deb http://packages.cloud.google.com/apt cloud-sdk main\" | tee -a /etc/apt/sources.list.d/google-cloud-sdk.list && \\\n" ++
  "\t\t\t\t\t\t\t\t\tapt-get update && apt-get install -y google-cloud-cli && \\\n" ++
  "\t\t\t\t\t\t\t\t\trm -rf /var/lib/apt/lists/*\t\t\t\n" ++
  "\n" ++
  "\t\t\t\t\t\t\t\t\techo \"checking gsutil version...\"\n" ++
  "\t\t\t\t\t\t\t\t\tgsutil --version\n" ++
  "\n" ++
  "\t\t\t\t\t\t\t\t\techo \"Starting database backup...\"\n" ++
  "\t\t\t\t\t\t\t\t\tBACKUP_FILE=\"/tmp/backup.sql\"\n" ++
  "\t\t\t\t\t\t\t\t\tPGPASSWORD=$DB_PASSWORD pg_dump -h $DB_HOST -U $DB_USER -p $DB_PORT -d $DB_NAME -n $DB_SCHEMA > $BACKUP_FILE\n" ++
  "\n" ++
  "\t\t\t\t\t\t\t\t\tif [ $? -eq 0 ]; then\n" ++
  "\t\t\t\t\t\t\t\t\t\techo \"Backup successful! Uploading to GCS...\"\n" ++
  "\t\t\t\t\t\t\t\t\t\tGCS_PATH=\"gs://$GCS_BUCKET/backups/backup-$(date +%Y%m%d-%H%M%S).sql\"\n" ++
  "\t\t\t\t\t\t\t\t\t\tgsutil cp $BACKUP_FILE $GCS_PATH\n" ++
  "\t\t\t\t\t\t\t\t\t\t\n" ++
  "\t\t\t\t\t\t\t\t\t\tif [ $? -eq 0 ]; then\n" ++
  "\t\t\t\t\t\t\t\t\t\t\techo \"Upload successful! Backup saved at: $GCS_PATH\"\n" ++
  "\t\t\t\t\t\t\t\t\t\telse\n" ++
  "\t\t\t\t\t\t\t\t\t\t\techo \"ERROR: Upload to GCS failed!\" >&2\n" ++
  "\t\t\t\t\t\t\t\t\t\t\texit 1\n" ++
  "\t\t\t\t\t\t\t\t\t\tfi\n" ++
  "\t\t\t\t\t\t\t\t\telse\n" ++
  "\t\t\t\t\t\t\t\t\t\techo \"ERROR: pg_dump failed!\" >&2\n" ++
  "\t\t\t\t\t\t\t\t\t\texit 1\n" ++
  "\t\t\t\t\t\t\t\t\tfi\n" ++
  "\t\t\t\t\t\t\t\t"

/-- The environment of the `pg-dump` container. -/
def jobEnv (backup : BackupDatabaseSchema) : List EnvVar :=
  [ { Name := "DB_HOST", Value := backup.Spec.DbHost },
    { Name := "DB_USER", Value := backup.Spec.DbUser },
    { Name := "DB_PORT", Value := sprintfD backup.Spec.DbPort },
    { Name := "DB_NAME", Value := backup.Spec.DbName },
    { Name := "DB_SCHEMA", Value := backup.Spec.DbSchema },
    { Name := "GCS_BUCKET", Value := backup.Spec.GcsBucket },
    { Name := "DB_PASSWORD",
      ValueFrom := some
        { SecretKeyRef := some
            { Name := backup.Spec.DbPasswordSecretName,
              Key := backup.Spec.DbPasswordSecretKey } } } ]

/-- The job literal `newJob` built by the driver when no job exists. -/
def newJob (backup : BackupDatabaseSchema) : Job :=
  { Name := "backup-database-schema-job",
    Namespace := backup.Spec.BackupJobNamespace,
    Labels := [("backup-database", "true")],
    Finalizers := [finalizerName],
    Spec :=
      { Template :=
          { Spec :=
              { ServiceAccountName := backup.Spec.KubeServiceAccount,
                Containers :=
                  [ { Name := "pg-dump",
                      Image := "postgres:17.4",
                      Command := ["sh", "-c", backupScript],
                      Env := jobEnv backup } ],
                RestartPolicy := "Never" } } } }

/-- The status the driver writes after a successful create: `timestamp` is the
clock reading taken before the create, `now` the one taken after it. -/
def statusAfterCreate (backup : BackupDatabaseSchema) (timestamp now : Time)
    (job : Job) : BackupDatabaseSchema :=
  let backupFileName := "backup-" ++ formatTimestamp timestamp ++ ".sql"
  let location := "gs://" ++ backup.Spec.GcsBucket ++ "/backups/" ++ backupFileName
  { backup with
    Status :=
      { LastBackupTime := some now,
        BackupLocation := some location,
        Status := "Running",
        JobName := job.Name } }

/-- The status assignment of the driver for an existing job that is no longer
active. -/
def statusForJob (backup : BackupDatabaseSchema) (job : Job) : BackupDatabaseSchema :=
  if job.Status.Succeeded > 0 then
    { backup with Status := { backup.Status with Status := "Completed" } }
  else if job.Status.Failed > 0 then
    { backup with Status := { backup.Status with Status := "Failed" } }
  else backup

/-- The method `BackupDatabaseSchemaReconciler.Reconcile`. -/
def BackupDatabaseSchemaReconciler.Reconcile {σ : Type} (r : Platform σ)
    (req : Request) (s : σ) : Outcome σ :=
  match r.GetBackup req.NamespacedName s with
  | (.error err, s1) =>
    if errors.IsNotFound err then
      ⟨{}, none, [.getBackup req.NamespacedName], s1⟩
    else
      ⟨{}, some err, [.getBackup req.NamespacedName], s1⟩
  | (.ok backup, s1) =>
    if backup.Spec.BackupJobNamespace = "" then
      ⟨{}, none, [.getBackup req.NamespacedName], s1⟩
    else
      let key : NamespacedName :=
        { Name := "backup-database-schema-job", Namespace := backup.Spec.BackupJobNamespace }
      match r.GetJob key s1 with
      | (.ok job, s2) =>
        if job.Status.Active > 0 then
          ⟨{}, none, [.getBackup req.NamespacedName, .getJob key], s2⟩
        else
          let backup1 := statusForJob backup job
          match r.StatusUpdate backup1 s2 with
          | (some err, s3) =>
            ⟨{}, some err,
              [.getBackup req.NamespacedName, .getJob key, .statusUpdate backup1], s3⟩
          | (none, s3) =>
            ⟨{ RequeueAfter := 5 * time.Minute }, none,
              [.getBackup req.NamespacedName, .getJob key, .statusUpdate backup1], s3⟩
      | (.error err, s2) =>
        if !errors.IsNotFound err then
          ⟨{}, some err, [.getBackup req.NamespacedName, .getJob key], s2⟩
        else
          let timestamp := r.Now s2
          let job := newJob backup
          match r.CreateJob job s2 with
          | (some err, s3) =>
            ⟨{}, some err,
              [.getBackup req.NamespacedName, .getJob key, .createJob job], s3⟩
          | (none, s3) =>
            let backup1 := statusAfterCreate backup timestamp (r.Now s3) job
            match r.StatusUpdate backup1 s3 with
            | (some err, s4) =>
              ⟨{}, some err,
                [.getBackup req.NamespacedName, .getJob key, .createJob job,
                  .statusUpdate backup1], s4⟩
            | (none, s4) =>
              ⟨{ RequeueAfter := 5 * time.Minute }, none,
                [.getBackup req.NamespacedName, .getJob key, .createJob job,
                  .statusUpdate backup1], s4⟩

/-! ## The job cleanup collector -/

/-- The loop `for _, pod := range podList.Items` of the collector: delete the
pods in order and stop at the first failure. -/
def JobCleanupReconciler.deletePods {σ : Type} (r : Platform σ) :
    List Pod → σ → Option Err × List Op × σ
  | [], s => (none, [], s)
  | pod :: rest, s =>
    match r.DeletePod pod s with
    | (some err, s1) => (some err, [.deletePod pod], s1)
    | (none, s1) =>
      match JobCleanupReconciler.deletePods r rest s1 with
      | (e, ops, s2) => (e, .deletePod pod :: ops, s2)

/-- The final `r.Delete(ctx, job)` of the collector, reached with the calls
`issued` so far. -/
def JobCleanupReconciler.deleteJob {σ : Type} (r : Platform σ) (job : Job)
    (issued : List Op) (s : σ) : Outcome σ :=
  match r.DeleteJob job s with
  | (some err, s1) =>
    if errors.IsNotFound err then
      ⟨{}, none, issued ++ [.deleteJob job], s1⟩
    else
      ⟨{}, some err, issued ++ [.deleteJob job], s1⟩
  | (none, s1) => ⟨{}, none, issued ++ [.deleteJob job], s1⟩

/-- The method `JobCleanupReconciler.Reconcile`. -/
def JobCleanupReconciler.Reconcile {σ : Type} (r : Platform σ)
    (req : Request) (s : σ) : Outcome σ :=
  match r.GetJob req.NamespacedName s with
  | (.error err, s1) =>
    if errors.IsNotFound err then
      ⟨{}, none, [.getJob req.NamespacedName], s1⟩
    else
      ⟨{}, some err, [.getJob req.NamespacedName], s1⟩
  | (.ok job, s1) =>
    if (mapLookup job.Labels "backup-database").isNone then
      ⟨{}, none, [.getJob req.NamespacedName], s1⟩
    else if job.Status.Succeeded > 0 ∨ job.Status.Failed > 0 then
      if job.Finalizers.length > 0 then
        let labelSelector : LabelSelector := { MatchLabels := [("job-name", job.Name)] }
        match r.LabelSelectorAsSelector labelSelector with
        | .error err => ⟨{}, some err, [.getJob req.NamespacedName], s1⟩
        | .ok selector =>
          let opts : ListOptions := { LabelSelector := selector, Namespace := job.Namespace }
          match r.ListPods opts s1 with
          | (.error err, s2) =>
            ⟨{}, some err, [.getJob req.NamespacedName, .listPods opts], s2⟩
          | (.ok podList, s2) =>
            match JobCleanupReconciler.deletePods r podList s2 with
            | (some err, ops, s3) =>
              ⟨{}, some err, [.getJob req.NamespacedName, .listPods opts] ++ ops, s3⟩
            | (none, ops, s3) =>
              let job1 := job.SetFinalizers []
              match r.UpdateJob job1 s3 with
              | (some err, s4) =>
                ⟨{}, some err,
                  [.getJob req.NamespacedName, .listPods opts] ++ ops ++ [.updateJob job1], s4⟩
              | (none, s4) =>
                JobCleanupReconciler.deleteJob r job1
                  ([.getJob req.NamespacedName, .listPods opts] ++ ops ++ [.updateJob job1]) s4
      else
        JobCleanupReconciler.deleteJob r job [.getJob req.NamespacedName] s1
    else
      ⟨{ RequeueAfter := 1 * time.Minute }, none, [.getJob req.NamespacedName], s1⟩

/-! ## An abstract object store

A concrete world state for the platform: the stored records, jobs and pods,
each kind keyed by namespace and name, and a clock.  A deletion guard
(finalizer) blocks the removal of a job until it is cleared.  Every call can
also be made to fail by a fault schedule. -/

def ObjectMeta.key (m : ObjectMeta) : NamespacedName :=
  { Namespace := m.Namespace, Name := m.Name }

def Job.key (job : Job) : NamespacedName := job.toObjectMeta.key

def Pod.key (pod : Pod) : NamespacedName := pod.toObjectMeta.key

def BackupDatabaseSchema.key (b : BackupDatabaseSchema) : NamespacedName :=
  b.toObjectMeta.key

/-- A selector matches a label set when every requirement `k = v` holds. -/
def Selector.Matches (sel : Selector) (labels : List (String × String)) : Bool :=
  sel.Requirements.all fun kv => decide (mapLookup labels kv.1 = some kv.2)

structure Store where
  backups : List BackupDatabaseSchema := []
  jobs : List Job := []
  pods : List Pod := []
  clock : Time := 0
deriving DecidableEq, Repr

/-- A fault schedule: the error, if any, injected into a client call. -/
abbrev Faults := Op → Option Err

def noFaults : Faults := fun _ => none

def Store.getBackup (s : Store) (key : NamespacedName) : Except Err BackupDatabaseSchema :=
  match s.backups.find? fun b => decide (b.key = key) with
  | some b => .ok b
  | none => .error (.notFound key.Name)

def Store.getJob (s : Store) (key : NamespacedName) : Except Err Job :=
  match s.jobs.find? fun j => decide (j.key = key) with
  | some j => .ok j
  | none => .error (.notFound key.Name)

def Store.createJob (s : Store) (job : Job) : Option Err × Store :=
  if s.jobs.any fun j => decide (j.key = job.key) then
    (some (.other "AlreadyExists"), s)
  else (none, { s with jobs := s.jobs ++ [job] })

def Store.statusUpdate (s : Store) (b : BackupDatabaseSchema) : Option Err × Store :=
  if s.backups.any fun x => decide (x.key = b.key) then
    (none, { s with backups := s.backups.map fun x =>
      if x.key = b.key then { x with Status := b.Status } else x })
  else (some (.notFound b.Name), s)

def Store.listPods (s : Store) (opts : ListOptions) : List Pod :=
  s.pods.filter fun p =>
    decide (p.Namespace = opts.Namespace) && opts.LabelSelector.Matches p.Labels

def Store.deletePod (s : Store) (pod : Pod) : Option Err × Store :=
  if s.pods.any fun p => decide (p.key = pod.key) then
    (none, { s with pods := s.pods.filter fun p => decide (p.key ≠ pod.key) })
  else (some (.notFound pod.Name), s)

def Store.updateJob (s : Store) (job : Job) : Option Err × Store :=
  if s.jobs.any fun j => decide (j.key = job.key) then
    (none, { s with jobs := s.jobs.map fun j => if j.key = job.key then job else j })
  else (some (.notFound job.Name), s)

def Store.deleteJob (s : Store) (job : Job) : Option Err × Store :=
  match s.jobs.find? fun j => decide (j.key = job.key) with
  | none => (some (.notFound job.Name), s)
  | some stored =>
    if stored.Finalizers = [] then
      (none, { s with jobs := s.jobs.filter fun j => decide (j.key ≠ job.key) })
    else (none, s)

/-- The platform over the abstract store, under a fault schedule. -/
def storePlatform (f : Faults) : Platform Store where
  GetBackup key s :=
    match f (.getBackup key) with
    | some e => (.error e, s)
    | none => (s.getBackup key, s)
  GetJob key s :=
    match f (.getJob key) with
    | some e => (.error e, s)
    | none => (s.getJob key, s)
  CreateJob job s :=
    match f (.createJob job) with
    | some e => (some e, s)
    | none => s.createJob job
  StatusUpdate b s :=
    match f (.statusUpdate b) with
    | some e => (some e, s)
    | none => s.statusUpdate b
  ListPods opts s :=
    match f (.listPods opts) with
    | some e => (.error e, s)
    | none => (.ok (s.listPods opts), s)
  DeletePod pod s :=
    match f (.deletePod pod) with
    | some e => (some e, s)
    | none => s.deletePod pod
  UpdateJob job s :=
    match f (.updateJob job) with
    | some e => (some e, s)
    | none => s.updateJob job
  DeleteJob job s :=
    match f (.deleteJob job) with
    | some e => (some e, s)
    | none => s.deleteJob job
  Now s := s.clock
  LabelSelectorAsSelector ls := .ok { Requirements := ls.MatchLabels }

/-- The effect of one successful client call on the store. -/
def applyOp (op : Op) (s : Store) : Store :=
  match op with
  | .getBackup _ => s
  | .getJob _ => s
  | .createJob job => (s.createJob job).2
  | .statusUpdate b => (s.statusUpdate b).2
  | .listPods _ => s
  | .deletePod pod => (s.deletePod pod).2
  | .updateJob job => (s.updateJob job).2
  | .deleteJob job => (s.deleteJob job).2

/-- The store after a sequence of client calls has taken effect. -/
def applyOps (ops : List Op) (s : Store) : Store :=
  ops.foldl (fun t op => applyOp op t) s

/-- The object a call deletes, if it is a deletion: its kind and key. -/
def Op.deleted : Op → Option (String × NamespacedName)
  | .deletePod pod => some ("Pod", pod.key)
  | .deleteJob job => some ("Job", job.key)
  | _ => none

/-- A pod is linked to a job: same namespace, label `job-name` = the job name. -/
def linked (job : Job) (pod : Pod) : Bool :=
  decide (pod.Namespace = job.Namespace) &&
    decide (mapLookup pod.Labels "job-name" = some job.Name)

/-- The job with the value of its label `backup-database`, when present,
replaced by `v`. -/
def Job.withLabelValue (v : String) (job : Job) : Job :=
  { job with Labels := job.Labels.map fun kv =>
      if kv.1 = "backup-database" then (kv.1, v) else kv }

/-- The call with its job argument relabelled. -/
def Op.withLabelValue (v : String) : Op → Op
  | .createJob job => .createJob (job.withLabelValue v)
  | .updateJob job => .updateJob (job.withLabelValue v)
  | .deleteJob job => .deleteJob (job.withLabelValue v)
  | op => op

/-- The store with every job relabelled. -/
def Store.withLabelValue (v : String) (s : Store) : Store :=
  { s with jobs := s.jobs.map (Job.withLabelValue v) }

/-! ## Sample objects -/

def sampleSpec : BackupDatabaseSchemaSpec :=
  { DbHost := "db.internal", DbUser := "postgres", DbPasswordSecretName := "db-secret",
    DbPasswordSecretNamespace := "default", DbPasswordSecretKey := "password",
    DbName := "app", DbSchema := "public", DbPort := 5432, GcsBucket := "bucket",
    KubeServiceAccount := "backup-sa", GcpServiceAccount := "backup@gcp",
    BackupJobNamespace := "backups" }

def sampleBackup : BackupDatabaseSchema :=
  { Name := "nightly", Namespace := "default", Spec := sampleSpec }

def sampleRequest : Request :=
  { NamespacedName := { Namespace := "default", Name := "nightly" } }

/-- The backup job of `sampleBackup` with the given counters. -/
def sampleJob (active succeeded failed : Int) : Job :=
  { newJob sampleBackup with
    Status := { Active := active, Succeeded := succeeded, Failed := failed } }

def jobRequest : Request :=
  { NamespacedName := { Namespace := "backups", Name := "backup-database-schema-job" } }

/-- A pod in namespace `backups` linked to the backup job. -/
def samplePod (name : String) : Pod :=
  { Name := name, Namespace := "backups",
    Labels := [("job-name", "backup-database-schema-job")] }

/-- A store holding the record and no job. -/
def storeNoJob : Store := { backups := [sampleBackup], clock := 1700000000 }

/-- A store holding the record and its job with the given counters. -/
def storeWithJob (active succeeded failed : Int) : Store :=
  { backups := [sampleBackup], jobs := [sampleJob active succeeded failed],
    clock := 1700000000 }

/-- A store holding the failed job and two linked pods. -/
def storeFailedJob : Store :=
  { jobs := [sampleJob 0 0 1], pods := [samplePod "pod-a", samplePod "pod-b"] }

/-- A fault schedule that refuses the deletion of the pod called `name`. -/
def refusePodDelete (name : String) : Faults
  | .deletePod pod => if pod.Name = name then some (.other "delete refused") else none
  | _ => none

/-- A store holding the failed job and three linked pods. -/
def storeThreePods : Store :=
  { jobs := [sampleJob 0 0 1],
    pods := [samplePod "pod-a", samplePod "pod-b", samplePod "pod-c"] }

/-- The failed job without any finalizer. -/
def unguardedJob : Job := { sampleJob 0 0 1 with Finalizers := [] }

/-- A store holding the failed job without finalizer and two linked pods. -/
def storeUnguardedJob : Store :=
  { jobs := [unguardedJob], pods := [samplePod "pod-a", samplePod "pod-b"] }

/-- The failed job guarded only by a finalizer of another system. -/
def foreignGuardJob : Job := { sampleJob 0 0 1 with Finalizers := ["example.com/other"] }

/-- The list options of the collector for the backup job. -/
def sampleListOptions : ListOptions :=
  { LabelSelector := { Requirements := [("job-name", "backup-database-schema-job")] },
    Namespace := "backups" }

/-- The outcome with every job relabelled: in the calls issued and in the
store left. -/
def Outcome.withLabelValue (v : String) (o : Outcome Store) : Outcome Store :=
  { result := o.result, err := o.err, trace := o.trace.map (Op.withLabelValue v),
    state := o.state.withLabelValue v }

/-- The store left when the collector's reconcile on `s` is interrupted after
its first `k` client calls have taken effect. -/
def interrupted (req : Request) (k : Nat) (s : Store) : Store :=
  applyOps ((JobCleanupReconciler.Reconcile (storePlatform noFaults) req s).trace.take k) s

/-! ## Lemmas on the deletion loop -/

theorem deletePods_ok {σ : Type} (r : Platform σ) (pods : List Pod) (s s1 : σ)
    (ops : List Op)
    (h : JobCleanupReconciler.deletePods r pods s = (none, ops, s1)) :
    ops = pods.map Op.deletePod := by
  induction pods generalizing s ops with
  | nil =>
    simp only [JobCleanupReconciler.deletePods, Prod.mk.injEq] at h
    simp [h.2.1.symm]
  | cons pod rest ih =>
    simp only [JobCleanupReconciler.deletePods] at h
    rcases hd : r.DeletePod pod s with ⟨e, s2⟩
    rw [hd] at h
    cases e with
    | some err => simp at h
    | none =>
      rcases hr : JobCleanupReconciler.deletePods r rest s2 with ⟨e2, ops2, s3⟩
      simp only [hr, Prod.mk.injEq] at h
      obtain ⟨he, hops, hs⟩ := h
      subst he hs
      have := ih s2 ops2 hr
      simp [← hops, this]

theorem deletePods_append_fail {σ : Type} (r : Platform σ) (pods1 pods2 : List Pod)
    (pod : Pod) (s s1 s2 : σ) (e : Err)
    (h1 : (JobCleanupReconciler.deletePods r pods1 s).1 = none)
    (hs : (JobCleanupReconciler.deletePods r pods1 s).2.2 = s1)
    (h2 : r.DeletePod pod s1 = (some e, s2)) :
    JobCleanupReconciler.deletePods r (pods1 ++ pod :: pods2) s =
      (some e, pods1.map Op.deletePod ++ [Op.deletePod pod], s2) := by
  induction pods1 generalizing s with
  | nil =>
    simp only [JobCleanupReconciler.deletePods] at hs
    subst hs
    simp [JobCleanupReconciler.deletePods, h2]
  | cons p rest ih =>
    simp only [JobCleanupReconciler.deletePods] at h1 hs
    rcases hd : r.DeletePod p s with ⟨e1, s3⟩
    rw [hd] at h1 hs
    cases e1 with
    | some err => simp at h1
    | none =>
      simp only at h1 hs
      have := ih s3 h1 hs
      simp [JobCleanupReconciler.deletePods, hd, this]

theorem deletePods_ops {σ : Type} (r : Platform σ) (pods : List Pod) (s : σ) :
    ∀ op ∈ (JobCleanupReconciler.deletePods r pods s).2.1, ∃ pod, op = Op.deletePod pod := by
  induction pods generalizing s with
  | nil => simp [JobCleanupReconciler.deletePods]
  | cons p rest ih =>
    simp only [JobCleanupReconciler.deletePods]
    rcases hd : r.DeletePod p s with ⟨e1, s3⟩
    cases e1 with
    | some err => simp
    | none =>
      intro op hop
      simp only [List.mem_cons] at hop
      rcases hop with h | h
      · exact ⟨p, h⟩
      · exact ih s3 op h

/-! ## The driver -/

/-- C1: when the record has a non-empty backupJobNamespace, the job lookup
returns NotFound and the reconcile returns no error (the create and the status
update both succeed), the calls issued are the two lookups, exactly one job
Create and the status update; the created job is named
"backup-database-schema-job" in namespace backupJobNamespace, has label
backup-database="true", finalizer "backup.csyeteam03.xyz/finalizer" and exactly
one container with the environment DB_HOST, DB_USER, DB_PORT (decimal rendering
of dbPort), DB_NAME, DB_SCHEMA, GCS_BUCKET by value and DB_PASSWORD from the
secret dbPasswordSecretName / dbPasswordSecretKey; the status written has Status
"Running" and JobName the job name; the result asks for a re-poll after
5 minutes. -/
theorem driver_creates_job_when_absent {σ : Type} (r : Platform σ) (req : Request)
    (s s1 s2 : σ) (backup : BackupDatabaseSchema) (e : Err)
    (hget : r.GetBackup req.NamespacedName s = (.ok backup, s1))
    (hns : backup.Spec.BackupJobNamespace ≠ "")
    (hjob : r.GetJob { Namespace := backup.Spec.BackupJobNamespace,
                       Name := "backup-database-schema-job" } s1 = (.error e, s2))
    (hnf : errors.IsNotFound e = true)
    (hok : (BackupDatabaseSchemaReconciler.Reconcile r req s).err = none) :
    ∃ (job : Job) (c : Container) (written : BackupDatabaseSchema),
      (BackupDatabaseSchemaReconciler.Reconcile r req s).trace =
        [ Op.getBackup req.NamespacedName,
          Op.getJob { Namespace := backup.Spec.BackupJobNamespace,
                      Name := "backup-database-schema-job" },
          Op.createJob job,
          Op.statusUpdate written ] ∧
      job.Name = "backup-database-schema-job" ∧
      job.Namespace = backup.Spec.BackupJobNamespace ∧
      job.Labels = [("backup-database", "true")] ∧
      job.Finalizers = ["backup.csyeteam03.xyz/finalizer"] ∧
      job.Spec.Template.Spec.Containers = [c] ∧
      c.Env =
        [ { Name := "DB_HOST", Value := backup.Spec.DbHost },
          { Name := "DB_USER", Value := backup.Spec.DbUser },
          { Name := "DB_PORT", Value := sprintfD backup.Spec.DbPort },
          { Name := "DB_NAME", Value := backup.Spec.DbName },
          { Name := "DB_SCHEMA", Value := backup.Spec.DbSchema },
          { Name := "GCS_BUCKET", Value := backup.Spec.GcsBucket },
          { Name := "DB_PASSWORD",
            ValueFrom := some
              { SecretKeyRef := some
                  { Name := backup.Spec.DbPasswordSecretName,
                    Key := backup.Spec.DbPasswordSecretKey } } } ] ∧
      written.Status.Status = "Running" ∧
      written.Status.JobName = job.Name ∧
      written.toObjectMeta = backup.toObjectMeta ∧
      written.Spec = backup.Spec ∧
      (BackupDatabaseSchemaReconciler.Reconcile r req s).result =
        { Requeue := false, RequeueAfter := 5 * time.Minute } ∧
      5 * time.Minute = 300 * 1000000000 := by
  have hnf2 : (!errors.IsNotFound e) = false := by simp [hnf]
  rcases hc : r.CreateJob (newJob backup) s2 with ⟨ec, s3⟩
  rcases hu : r.StatusUpdate
      (statusAfterCreate backup (r.Now s2) (r.Now s3) (newJob backup)) s3 with ⟨eu, s4⟩
  cases ec with
  | some err =>
    simp [BackupDatabaseSchemaReconciler.Reconcile, hget, hns, hjob, hnf, hc] at hok
  | none =>
    cases eu with
    | some err =>
      simp [BackupDatabaseSchemaReconciler.Reconcile, hget, hns, hjob, hnf, hc, hu] at hok
    | none =>
      refine ⟨newJob backup, _,
        statusAfterCreate backup (r.Now s2) (r.Now s3) (newJob backup), ?_, rfl, rfl, rfl,
        rfl, rfl, rfl, rfl, rfl, rfl, rfl, ?_, by decide⟩
      · simp [BackupDatabaseSchemaReconciler.Reconcile, hget, hns, hjob, hnf, hc, hu]
      · simp [BackupDatabaseSchemaReconciler.Reconcile, hget, hns, hjob, hnf, hc, hu]

/-- The driver creates the job for the sample record in a store without job. -/
theorem driver_creates_job_when_absent_witness :
    (BackupDatabaseSchemaReconciler.Reconcile (storePlatform noFaults) sampleRequest
        storeNoJob).result = { Requeue := false, RequeueAfter := 5 * time.Minute } ∧
      (BackupDatabaseSchemaReconciler.Reconcile (storePlatform noFaults) sampleRequest
        storeNoJob).state.jobs = [newJob sampleBackup] := by
  obtain ⟨_, _, _, _, _, _, _, _, _, _, _, _, _, _, h, _⟩ :=
    driver_creates_job_when_absent (storePlatform noFaults) sampleRequest storeNoJob
      storeNoJob storeNoJob sampleBackup (.notFound "backup-database-schema-job")
      rfl (by decide) rfl rfl rfl
  exact ⟨h, rfl⟩

/-- C8: when the record has a non-empty backupJobNamespace and the job
"backup-database-schema-job" exists with active > 0, whatever its other
counters, the reconcile issues the two lookups and nothing else (no job create,
update or delete, no status update), leaves the world as the lookups left it,
and returns no error. -/
theorem driver_active_job_no_writes {σ : Type} (r : Platform σ) (req : Request)
    (s s1 s2 : σ) (backup : BackupDatabaseSchema) (job : Job)
    (hget : r.GetBackup req.NamespacedName s = (.ok backup, s1))
    (hns : backup.Spec.BackupJobNamespace ≠ "")
    (hjob : r.GetJob { Namespace := backup.Spec.BackupJobNamespace,
                       Name := "backup-database-schema-job" } s1 = (.ok job, s2))
    (hactive : job.Status.Active > 0) :
    (BackupDatabaseSchemaReconciler.Reconcile r req s).trace =
        [ Op.getBackup req.NamespacedName,
          Op.getJob { Namespace := backup.Spec.BackupJobNamespace,
                      Name := "backup-database-schema-job" } ] ∧
      (BackupDatabaseSchemaReconciler.Reconcile r req s).state = s2 ∧
      (BackupDatabaseSchemaReconciler.Reconcile r req s).err = none := by
  simp [BackupDatabaseSchemaReconciler.Reconcile, hget, hns, hjob, hactive]

/-- With an active job that also has succeeded and failed pods, the store is
left exactly as it was. -/
theorem driver_active_job_no_writes_witness :
    (BackupDatabaseSchemaReconciler.Reconcile (storePlatform noFaults) sampleRequest
        (storeWithJob 1 2 3)).trace =
        [ Op.getBackup sampleRequest.NamespacedName,
          Op.getJob { Namespace := "backups", Name := "backup-database-schema-job" } ] ∧
      (BackupDatabaseSchemaReconciler.Reconcile (storePlatform noFaults) sampleRequest
        (storeWithJob 1 2 3)).state = storeWithJob 1 2 3 ∧
      (BackupDatabaseSchemaReconciler.Reconcile (storePlatform noFaults) sampleRequest
        (storeWithJob 1 2 3)).err = none :=
  driver_active_job_no_writes (storePlatform noFaults) sampleRequest (storeWithJob 1 2 3)
    (storeWithJob 1 2 3) (storeWithJob 1 2 3) sampleBackup (sampleJob 1 2 3)
    rfl (by decide) rfl (by decide)

/-- C2, at an existing job with active = 1: the reconcile returns without error
and its result carries no re-poll delay (RequeueAfter = 0), not 5 minutes. -/
theorem driver_active_job_no_requeue :
    (BackupDatabaseSchemaReconciler.Reconcile (storePlatform noFaults) sampleRequest
        (storeWithJob 1 0 0)).err = none ∧
      (BackupDatabaseSchemaReconciler.Reconcile (storePlatform noFaults) sampleRequest
        (storeWithJob 1 0 0)).result = { Requeue := false, RequeueAfter := 0 } ∧
      (BackupDatabaseSchemaReconciler.Reconcile (storePlatform noFaults) sampleRequest
        (storeWithJob 1 0 0)).result.RequeueAfter ≠ 5 * time.Minute := by
  refine ⟨rfl, rfl, ?_⟩
  decide

/-- C3, at an existing job with active = 0 and succeeded = 1: the status the
driver writes is "Completed", which is none of the declared values Running,
Success, Failed. -/
theorem driver_succeeded_job_writes_completed :
    (BackupDatabaseSchemaReconciler.Reconcile (storePlatform noFaults) sampleRequest
        (storeWithJob 0 1 0)).trace =
        [ Op.getBackup sampleRequest.NamespacedName,
          Op.getJob { Namespace := "backups", Name := "backup-database-schema-job" },
          Op.statusUpdate { sampleBackup with Status := { Status := "Completed" } } ] ∧
      (BackupDatabaseSchemaReconciler.Reconcile (storePlatform noFaults) sampleRequest
        (storeWithJob 0 1 0)).state.backups.map (fun b => b.Status.Status) =
        ["Completed"] ∧
      "Completed" ∉ [BackupStatusRunning, BackupStatusSuccess, BackupStatusFailed] := by
  refine ⟨rfl, rfl, ?_⟩
  decide

/-! ## The collector -/

/-- C5: for a job whose labels do not contain the key "backup-database",
whatever its counters and finalizers, the reconcile issues only the initial
fetch (no list, update or delete), leaves the world as the fetch left it, and
returns success with no re-poll delay. -/
theorem collector_ignores_unlabelled {σ : Type} (r : Platform σ) (req : Request)
    (s s1 : σ) (job : Job)
    (hget : r.GetJob req.NamespacedName s = (.ok job, s1))
    (hlabel : "backup-database" ∉ job.Labels.map Prod.fst) :
    JobCleanupReconciler.Reconcile r req s =
      { result := { Requeue := false, RequeueAfter := 0 }, err := none,
        trace := [Op.getJob req.NamespacedName], state := s1 } := by
  have hnone : mapLookup job.Labels "backup-database" = none := by
    simp only [mapLookup, List.lookup_eq_none_iff]
    intro p hp
    simp only [bne_iff_ne, ne_eq]
    intro heq
    apply hlabel
    simp only [List.mem_map]
    exact ⟨p, hp, heq.symm⟩
  simp [JobCleanupReconciler.Reconcile, hget, hnone]

/-- A failed job with a finalizer, two linked pods and no management label is
left alone. -/
theorem collector_ignores_unlabelled_witness :
    JobCleanupReconciler.Reconcile (storePlatform noFaults) jobRequest
        { storeFailedJob with jobs := [{ sampleJob 0 0 1 with Labels := [("app", "x")] }] } =
      { result := { Requeue := false, RequeueAfter := 0 }, err := none,
        trace := [Op.getJob jobRequest.NamespacedName],
        state :=
          { storeFailedJob with
            jobs := [{ sampleJob 0 0 1 with Labels := [("app", "x")] }] } } :=
  collector_ignores_unlabelled (storePlatform noFaults) jobRequest _ _
    { sampleJob 0 0 1 with Labels := [("app", "x")] } rfl (by decide)

theorem mapLookup_isNone_of_mem {m : List (String × String)} {k : String}
    (h : k ∈ m.map Prod.fst) : (mapLookup m k).isNone = false := by
  cases hl : mapLookup m k with
  | some v => rfl
  | none =>
    exfalso
    simp only [mapLookup, List.lookup_eq_none_iff, bne_iff_ne, ne_eq] at hl
    simp only [List.mem_map] at h
    obtain ⟨p, hp, hk⟩ := h
    exact hl p hp hk.symm

theorem deleteJob_trace {σ : Type} (r : Platform σ) (job : Job) (issued : List Op) (s : σ) :
    (JobCleanupReconciler.deleteJob r job issued s).trace = issued ++ [Op.deleteJob job] := by
  unfold JobCleanupReconciler.deleteJob
  rcases hd : r.DeleteJob job s with ⟨e, s1⟩
  cases e with
  | none => rfl
  | some err =>
    by_cases hnf : errors.IsNotFound err = true
    · simp [hnf]
    · simp [hnf]

/-- The collector on a labelled, finished job that carries a finalizer: the
teardown branch. -/
theorem collector_teardown_unfold {σ : Type} (r : Platform σ) (req : Request)
    (s s1 : σ) (job : Job)
    (hget : r.GetJob req.NamespacedName s = (.ok job, s1))
    (hlabel : "backup-database" ∈ job.Labels.map Prod.fst)
    (hfin : job.Status.Succeeded > 0 ∨ job.Status.Failed > 0)
    (hguard : job.Finalizers ≠ []) :
    JobCleanupReconciler.Reconcile r req s =
      match r.LabelSelectorAsSelector { MatchLabels := [("job-name", job.Name)] } with
      | .error err => ⟨{}, some err, [.getJob req.NamespacedName], s1⟩
      | .ok selector =>
        match r.ListPods { LabelSelector := selector, Namespace := job.Namespace } s1 with
        | (.error err, s2) =>
          ⟨{}, some err, [.getJob req.NamespacedName,
            .listPods { LabelSelector := selector, Namespace := job.Namespace }], s2⟩
        | (.ok podList, s2) =>
          match JobCleanupReconciler.deletePods r podList s2 with
          | (some err, ops, s3) =>
            ⟨{}, some err, [.getJob req.NamespacedName,
              .listPods { LabelSelector := selector, Namespace := job.Namespace }] ++ ops, s3⟩
          | (none, ops, s3) =>
            match r.UpdateJob { job with Finalizers := [] } s3 with
            | (some err, s4) =>
              ⟨{}, some err,
                [.getJob req.NamespacedName,
                  .listPods { LabelSelector := selector, Namespace := job.Namespace }] ++ ops ++
                  [.updateJob { job with Finalizers := [] }], s4⟩
            | (none, s4) =>
              JobCleanupReconciler.deleteJob r { job with Finalizers := [] }
                ([.getJob req.NamespacedName,
                  .listPods { LabelSelector := selector, Namespace := job.Namespace }] ++ ops ++
                  [.updateJob { job with Finalizers := [] }]) s4 := by
  have hlen : job.Finalizers.length > 0 := List.length_pos.mpr hguard
  unfold JobCleanupReconciler.Reconcile
  rw [hget]
  simp only [mapLookup_isNone_of_mem hlabel, if_pos hfin, if_pos hlen, Job.SetFinalizers]
  rfl

/-- The collector on a labelled, finished job without finalizer: the job is
deleted directly. -/
theorem collector_direct_unfold {σ : Type} (r : Platform σ) (req : Request)
    (s s1 : σ) (job : Job)
    (hget : r.GetJob req.NamespacedName s = (.ok job, s1))
    (hlabel : "backup-database" ∈ job.Labels.map Prod.fst)
    (hfin : job.Status.Succeeded > 0 ∨ job.Status.Failed > 0)
    (hguard : job.Finalizers = []) :
    JobCleanupReconciler.Reconcile r req s =
      JobCleanupReconciler.deleteJob r job [.getJob req.NamespacedName] s1 := by
  have hlen : ¬ job.Finalizers.length > 0 := by simp [hguard]
  unfold JobCleanupReconciler.Reconcile
  rw [hget]
  simp only [mapLookup_isNone_of_mem hlabel, if_pos hfin, if_neg hlen]
  rfl

/-- C6: for a finished, labelled job that carries a finalizer, when the listed
pods are `pods1 ++ pod :: pods2`, the deletions of `pods1` succeed and the
deletion of `pod` fails with `e`: the reconcile returns `e`; the calls issued
are the fetch, the list, the deletions of `pods1` and the failed deletion of
`pod`, so no pod of `pods2` is attempted, no job Update is issued (the
finalizers are not cleared) and the job is not deleted. -/
theorem collector_pod_delete_failure {σ : Type} (r : Platform σ) (req : Request)
    (s s1 s2 s3 : σ) (job : Job) (selector : Selector) (pods1 pods2 : List Pod)
    (pod : Pod) (e : Err)
    (hget : r.GetJob req.NamespacedName s = (.ok job, s1))
    (hlabel : "backup-database" ∈ job.Labels.map Prod.fst)
    (hfin : job.Status.Succeeded > 0 ∨ job.Status.Failed > 0)
    (hguard : job.Finalizers ≠ [])
    (hsel : r.LabelSelectorAsSelector { MatchLabels := [("job-name", job.Name)] } =
      .ok selector)
    (hlist : r.ListPods { LabelSelector := selector, Namespace := job.Namespace } s1 =
      (.ok (pods1 ++ pod :: pods2), s2))
    (hpre : (JobCleanupReconciler.deletePods r pods1 s2).1 = none)
    (hfail : r.DeletePod pod (JobCleanupReconciler.deletePods r pods1 s2).2.2 =
      (some e, s3)) :
    JobCleanupReconciler.Reconcile r req s =
      { result := { Requeue := false, RequeueAfter := 0 }, err := some e,
        trace :=
          [ Op.getJob req.NamespacedName,
            Op.listPods { LabelSelector := selector, Namespace := job.Namespace } ] ++
          pods1.map Op.deletePod ++ [Op.deletePod pod],
        state := s3 } := by
  rw [collector_teardown_unfold r req s s1 job hget hlabel hfin hguard, hsel]
  simp only [hlist]
  rw [deletePods_append_fail r pods1 pods2 pod s2 _ s3 e hpre rfl hfail]
  simp

/-- With three linked pods and the deletion of the second refused, only the
first pod is gone and the job keeps its finalizer. -/
theorem collector_pod_delete_failure_witness :
    JobCleanupReconciler.Reconcile (storePlatform (refusePodDelete "pod-b")) jobRequest
        storeThreePods =
      { result := { Requeue := false, RequeueAfter := 0 },
        err := some (.other "delete refused"),
        trace :=
          [ Op.getJob jobRequest.NamespacedName, Op.listPods sampleListOptions ] ++
          [samplePod "pod-a"].map Op.deletePod ++ [Op.deletePod (samplePod "pod-b")],
        state := { storeThreePods with pods := [samplePod "pod-b", samplePod "pod-c"] } } :=
  collector_pod_delete_failure (storePlatform (refusePodDelete "pod-b")) jobRequest
    storeThreePods storeThreePods storeThreePods
    { storeThreePods with pods := [samplePod "pod-b", samplePod "pod-c"] }
    (sampleJob 0 0 1) sampleListOptions.LabelSelector [samplePod "pod-a"]
    [samplePod "pod-c"] (samplePod "pod-b") (.other "delete refused")
    rfl (by decide) (by decide) (by decide) rfl rfl rfl rfl

/-- C10: for a finished, labelled job, (a) if the finalizer list is non-empty,
whatever it contains, then when the listing and every pod deletion succeed the
next call is a job Update whose argument is the fetched job with an empty
finalizer list and every other field unchanged, followed by at most the job
Delete; (b) if the finalizer list is empty, the calls issued are the fetch and
the job Delete only: no list, pod deletion or update. -/
theorem collector_guard_gate {σ : Type} (r : Platform σ) (req : Request)
    (s s1 : σ) (job : Job)
    (hget : r.GetJob req.NamespacedName s = (.ok job, s1))
    (hlabel : "backup-database" ∈ job.Labels.map Prod.fst)
    (hfin : job.Status.Succeeded > 0 ∨ job.Status.Failed > 0) :
    (job.Finalizers ≠ [] →
      ∀ (selector : Selector) (pods : List Pod) (s2 : σ),
        r.LabelSelectorAsSelector { MatchLabels := [("job-name", job.Name)] } =
          .ok selector →
        r.ListPods { LabelSelector := selector, Namespace := job.Namespace } s1 =
          (.ok pods, s2) →
        (JobCleanupReconciler.deletePods r pods s2).1 = none →
        ∃ rest : List Op,
          (JobCleanupReconciler.Reconcile r req s).trace =
            [ Op.getJob req.NamespacedName,
              Op.listPods { LabelSelector := selector, Namespace := job.Namespace } ] ++
            pods.map Op.deletePod ++
            Op.updateJob { job with Finalizers := [] } :: rest ∧
          (rest = [] ∨ rest = [Op.deleteJob { job with Finalizers := [] }])) ∧
    (job.Finalizers = [] →
      (JobCleanupReconciler.Reconcile r req s).trace =
        [Op.getJob req.NamespacedName, Op.deleteJob job]) := by
  constructor
  · intro hguard selector pods s2 hsel hlist hdel
    rw [collector_teardown_unfold r req s s1 job hget hlabel hfin hguard, hsel]
    simp only [hlist]
    rcases hd : JobCleanupReconciler.deletePods r pods s2 with ⟨ed, ops, s3⟩
    rw [hd] at hdel
    simp only at hdel
    subst hdel
    have hops := deletePods_ok r pods s2 s3 ops hd
    subst hops
    simp only
    rcases hu : r.UpdateJob { job with Finalizers := [] } s3 with ⟨eu, s4⟩
    cases eu with
    | some err => exact ⟨[], by simp, Or.inl rfl⟩
    | none =>
      refine ⟨[Op.deleteJob { job with Finalizers := [] }], ?_, Or.inr rfl⟩
      simp [deleteJob_trace]
  · intro hguard
    rw [collector_direct_unfold r req s s1 job hget hlabel hfin hguard, deleteJob_trace]
    rfl

/-- A failed job guarded only by a foreign finalizer is updated to carry no
finalizer at all and then deleted; the same job without finalizer is deleted
directly. -/
theorem collector_guard_gate_witness :
    (JobCleanupReconciler.Reconcile (storePlatform noFaults) jobRequest
        { storeFailedJob with jobs := [foreignGuardJob] }).trace =
      [ Op.getJob jobRequest.NamespacedName, Op.listPods sampleListOptions,
        Op.deletePod (samplePod "pod-a"), Op.deletePod (samplePod "pod-b"),
        Op.updateJob unguardedJob, Op.deleteJob unguardedJob ] ∧
    (JobCleanupReconciler.Reconcile (storePlatform noFaults) jobRequest
        storeUnguardedJob).trace =
      [Op.getJob jobRequest.NamespacedName, Op.deleteJob unguardedJob] := by
  constructor
  · obtain ⟨rest, h, _⟩ :=
      (collector_guard_gate (storePlatform noFaults) jobRequest
        { storeFailedJob with jobs := [foreignGuardJob] }
        { storeFailedJob with jobs := [foreignGuardJob] } foreignGuardJob
        rfl (by decide) (by decide)).1 (by decide) sampleListOptions.LabelSelector
        [samplePod "pod-a", samplePod "pod-b"]
        { storeFailedJob with jobs := [foreignGuardJob] } rfl rfl rfl
    rfl
  · exact (collector_guard_gate (storePlatform noFaults) jobRequest storeUnguardedJob
      storeUnguardedJob unguardedJob rfl (by decide) (by decide)).2 rfl

/-- C4 as stated fails: for the labelled failed job without finalizer and with
two linked pods in the store, the reconcile issues the fetch and the job
Delete only; the job is deleted while both linked pods are still stored, and
no list, pod deletion or update is issued. -/
theorem collector_unguarded_skips_teardown :
    (JobCleanupReconciler.Reconcile (storePlatform noFaults) jobRequest
        storeUnguardedJob).trace =
      [Op.getJob jobRequest.NamespacedName, Op.deleteJob unguardedJob] ∧
    (JobCleanupReconciler.Reconcile (storePlatform noFaults) jobRequest
        storeUnguardedJob).state =
      { jobs := [], pods := [samplePod "pod-a", samplePod "pod-b"] } ∧
    storeUnguardedJob.pods.filter (linked unguardedJob) =
      [samplePod "pod-a", samplePod "pod-b"] ∧
    "backup-database" ∈ unguardedJob.Labels.map Prod.fst ∧
    unguardedJob.Status.Failed > 0 ∧
    (JobCleanupReconciler.Reconcile (storePlatform noFaults) jobRequest
        storeUnguardedJob).trace ≠
      [ Op.getJob jobRequest.NamespacedName, Op.listPods sampleListOptions,
        Op.deletePod (samplePod "pod-a"), Op.deletePod (samplePod "pod-b"),
        Op.updateJob unguardedJob, Op.deleteJob unguardedJob ] := by
  refine ⟨rfl, rfl, rfl, by decide, by decide, ?_⟩
  intro h
  have hlen := congrArg List.length h
  have htr : (JobCleanupReconciler.Reconcile (storePlatform noFaults) jobRequest
      storeUnguardedJob).trace =
      [Op.getJob jobRequest.NamespacedName, Op.deleteJob unguardedJob] := rfl
  rw [htr] at hlen
  simp at hlen

/-- C4, amended: for a labelled job with succeeded > 0 or failed > 0 that
carries at least one finalizer, (a) when the selector conversion, the listing,
every pod deletion and the job update succeed, the calls issued are, in order:
the fetch, the list of the pods labelled job-name=<job name> in the job's
namespace, the deletion of each listed pod, the update of the job with its
finalizers cleared, the deletion of the job; (b) in every execution, whatever
fails, if a job Delete is issued at all then the calls issued are exactly that
sequence, so the job Delete comes after the deletion of every listed pod. -/
theorem collector_teardown_order {σ : Type} (r : Platform σ) (req : Request)
    (s s1 : σ) (job : Job)
    (hget : r.GetJob req.NamespacedName s = (.ok job, s1))
    (hlabel : "backup-database" ∈ job.Labels.map Prod.fst)
    (hfin : job.Status.Succeeded > 0 ∨ job.Status.Failed > 0)
    (hguard : job.Finalizers ≠ []) :
    (∀ (selector : Selector) (pods : List Pod) (s2 : σ),
        r.LabelSelectorAsSelector { MatchLabels := [("job-name", job.Name)] } =
          .ok selector →
        r.ListPods { LabelSelector := selector, Namespace := job.Namespace } s1 =
          (.ok pods, s2) →
        (JobCleanupReconciler.deletePods r pods s2).1 = none →
        (r.UpdateJob { job with Finalizers := [] }
          (JobCleanupReconciler.deletePods r pods s2).2.2).1 = none →
        (JobCleanupReconciler.Reconcile r req s).trace =
          [ Op.getJob req.NamespacedName,
            Op.listPods { LabelSelector := selector, Namespace := job.Namespace } ] ++
          pods.map Op.deletePod ++
          [ Op.updateJob { job with Finalizers := [] },
            Op.deleteJob { job with Finalizers := [] } ]) ∧
    (∀ deleted : Job,
        Op.deleteJob deleted ∈ (JobCleanupReconciler.Reconcile r req s).trace →
        ∃ (selector : Selector) (pods : List Pod) (s2 : σ),
          r.LabelSelectorAsSelector { MatchLabels := [("job-name", job.Name)] } =
            .ok selector ∧
          r.ListPods { LabelSelector := selector, Namespace := job.Namespace } s1 =
            (.ok pods, s2) ∧
          (JobCleanupReconciler.Reconcile r req s).trace =
            [ Op.getJob req.NamespacedName,
              Op.listPods { LabelSelector := selector, Namespace := job.Namespace } ] ++
            pods.map Op.deletePod ++
            [ Op.updateJob { job with Finalizers := [] },
              Op.deleteJob { job with Finalizers := [] } ]) := by
  rw [collector_teardown_unfold r req s s1 job hget hlabel hfin hguard]
  constructor
  · intro selector pods s2 hsel hlist hdel hupd
    rw [hsel]
    simp only [hlist]
    rcases hd : JobCleanupReconciler.deletePods r pods s2 with ⟨ed, ops, s3⟩
    rw [hd] at hdel hupd
    simp only at hdel hupd
    subst hdel
    have hops := deletePods_ok r pods s2 s3 ops hd
    subst hops
    simp only
    rcases hu : r.UpdateJob { job with Finalizers := [] } s3 with ⟨eu, s4⟩
    rw [hu] at hupd
    simp only at hupd
    subst hupd
    simp [deleteJob_trace]
  · intro deleted
    cases hsel : r.LabelSelectorAsSelector { MatchLabels := [("job-name", job.Name)] } with
    | error err => simp
    | ok selector =>
      simp only
      rcases hlist : r.ListPods { LabelSelector := selector, Namespace := job.Namespace } s1
        with ⟨el, s2⟩
      cases el with
      | error err => simp
      | ok pods =>
        simp only
        have hall := deletePods_ops r pods s2
        rcases hd : JobCleanupReconciler.deletePods r pods s2 with ⟨ed, ops, s3⟩
        rw [hd] at hall
        simp only at hall
        cases ed with
        | some err =>
          simp only [List.mem_append, List.mem_cons, List.mem_singleton, reduceCtorEq,
            List.not_mem_nil, or_false, false_or]
          intro hmem
          obtain ⟨p, hp⟩ := hall _ hmem
          cases hp
        | none =>
          have hops := deletePods_ok r pods s2 s3 ops hd
          subst hops
          simp only
          rcases hu : r.UpdateJob { job with Finalizers := [] } s3 with ⟨eu, s4⟩
          cases eu with
          | some err =>
            simp only [List.mem_append, List.mem_cons, List.mem_singleton, reduceCtorEq,
              List.not_mem_nil, or_false, false_or, List.mem_map, and_false, exists_false,
              false_implies]
          | none =>
            intro _
            exact ⟨selector, pods, s2, rfl, hlist, by simp [deleteJob_trace]⟩

/-- The failed job with its finalizer and two linked pods: both pods are
deleted, the guard is cleared, the job is deleted, in that order. -/
theorem collector_teardown_order_witness :
    (JobCleanupReconciler.Reconcile (storePlatform noFaults) jobRequest
        storeFailedJob).trace =
      [ Op.getJob jobRequest.NamespacedName, Op.listPods sampleListOptions ] ++
      [samplePod "pod-a", samplePod "pod-b"].map Op.deletePod ++
      [ Op.updateJob unguardedJob, Op.deleteJob unguardedJob ] :=
  (collector_teardown_order (storePlatform noFaults) jobRequest storeFailedJob
    storeFailedJob (sampleJob 0 0 1) rfl (by decide) (by decide) (by decide)).1
    sampleListOptions.LabelSelector [samplePod "pod-a", samplePod "pod-b"] storeFailedJob
    rfl rfl rfl rfl

/-! ## The value of the management label -/

theorem withLabelValue_isNone (v : String) (job : Job) :
    (mapLookup (job.withLabelValue v).Labels "backup-database").isNone =
      (mapLookup job.Labels "backup-database").isNone := by
  simp only [Job.withLabelValue, mapLookup]
  induction job.Labels with
  | nil => rfl
  | cons kv rest ih =>
    obtain ⟨k, w⟩ := kv
    by_cases hk : k = "backup-database"
    · subst hk
      simp [List.lookup_cons]
    · have hk2 : ("backup-database" == k) = false := by
        simp only [beq_eq_false_iff_ne, ne_eq]
        exact fun h => hk h.symm
      simp only [List.map_cons, hk, if_false, List.lookup_cons, hk2]
      exact ih

theorem find_job_withLabelValue (v : String) (jobs : List Job) (key : NamespacedName) :
    (jobs.map (Job.withLabelValue v)).find? (fun j => decide (j.key = key)) =
      (jobs.find? fun j => decide (j.key = key)).map (Job.withLabelValue v) := by
  rw [List.find?_map]
  rfl

theorem any_job_withLabelValue (v : String) (jobs : List Job) (key : NamespacedName) :
    (jobs.map (Job.withLabelValue v)).any (fun j => decide (j.key = key)) =
      jobs.any fun j => decide (j.key = key) := by
  rw [List.any_map]
  rfl

theorem getJob_withLabelValue (v : String) (s : Store) (key : NamespacedName) :
    (s.withLabelValue v).getJob key =
      match s.getJob key with
      | .ok job => .ok (job.withLabelValue v)
      | .error e => .error e := by
  simp only [Store.getJob, Store.withLabelValue, find_job_withLabelValue]
  cases s.jobs.find? fun j => decide (j.key = key) <;> rfl

theorem deletePod_withLabelValue (v : String) (s : Store) (pod : Pod) :
    (s.withLabelValue v).deletePod pod =
      ((s.deletePod pod).1, (s.deletePod pod).2.withLabelValue v) := by
  simp only [Store.deletePod, Store.withLabelValue]
  split <;> rfl

theorem updateJob_withLabelValue (v : String) (s : Store) (job : Job) :
    (s.withLabelValue v).updateJob (job.withLabelValue v) =
      ((s.updateJob job).1, (s.updateJob job).2.withLabelValue v) := by
  have hkey : (job.withLabelValue v).key = job.key := rfl
  simp only [Store.updateJob, Store.withLabelValue, hkey, any_job_withLabelValue]
  split
  · simp only [List.map_map, Prod.mk.injEq, true_and]
    congr 1
    apply List.map_congr_left
    intro j _
    have hj : (j.withLabelValue v).key = j.key := rfl
    simp only [Function.comp, hj]
    split <;> rfl
  · rfl

theorem deleteJob_withLabelValue (v : String) (s : Store) (job : Job) :
    (s.withLabelValue v).deleteJob (job.withLabelValue v) =
      ((s.deleteJob job).1, (s.deleteJob job).2.withLabelValue v) := by
  have hkey : (job.withLabelValue v).key = job.key := rfl
  simp only [Store.deleteJob, Store.withLabelValue, hkey, find_job_withLabelValue]
  cases s.jobs.find? fun j => decide (j.key = job.key) with
  | none => rfl
  | some stored =>
    have hfin : (stored.withLabelValue v).Finalizers = stored.Finalizers := rfl
    simp only [Option.map_some', hfin]
    split
    · simp only [List.filter_map, Prod.mk.injEq, true_and]
      rfl
    · rfl

theorem platform_getJob_withLabelValue (f1 f2 : Faults) (v : String)
    (hf : ∀ op, f2 (op.withLabelValue v) = f1 op) (key : NamespacedName) (s : Store) :
    (storePlatform f2).GetJob key (s.withLabelValue v) =
      match (storePlatform f1).GetJob key s with
      | (.ok job, t) => (.ok (job.withLabelValue v), t.withLabelValue v)
      | (.error e, t) => (.error e, t.withLabelValue v) := by
  have h := hf (.getJob key)
  simp only [Op.withLabelValue] at h
  simp only [storePlatform, h, getJob_withLabelValue]
  cases f1 (.getJob key) with
  | some e => rfl
  | none =>
    simp only
    cases s.getJob key <;> rfl

theorem platform_listPods_withLabelValue (f1 f2 : Faults) (v : String)
    (hf : ∀ op, f2 (op.withLabelValue v) = f1 op) (opts : ListOptions) (s : Store) :
    (storePlatform f2).ListPods opts (s.withLabelValue v) =
      (((storePlatform f1).ListPods opts s).1,
        ((storePlatform f1).ListPods opts s).2.withLabelValue v) := by
  have h := hf (.listPods opts)
  simp only [Op.withLabelValue] at h
  simp only [storePlatform, h]
  cases f1 (.listPods opts) <;> rfl

theorem platform_deletePod_withLabelValue (f1 f2 : Faults) (v : String)
    (hf : ∀ op, f2 (op.withLabelValue v) = f1 op) (pod : Pod) (s : Store) :
    (storePlatform f2).DeletePod pod (s.withLabelValue v) =
      (((storePlatform f1).DeletePod pod s).1,
        ((storePlatform f1).DeletePod pod s).2.withLabelValue v) := by
  have h := hf (.deletePod pod)
  simp only [Op.withLabelValue] at h
  simp only [storePlatform, h, deletePod_withLabelValue]
  cases f1 (.deletePod pod) <;> rfl

theorem platform_updateJob_withLabelValue (f1 f2 : Faults) (v : String)
    (hf : ∀ op, f2 (op.withLabelValue v) = f1 op) (job : Job) (s : Store) :
    (storePlatform f2).UpdateJob (job.withLabelValue v) (s.withLabelValue v) =
      (((storePlatform f1).UpdateJob job s).1,
        ((storePlatform f1).UpdateJob job s).2.withLabelValue v) := by
  have h := hf (.updateJob job)
  simp only [Op.withLabelValue] at h
  simp only [storePlatform, h, updateJob_withLabelValue]
  cases f1 (.updateJob job) <;> rfl

theorem platform_deleteJob_withLabelValue (f1 f2 : Faults) (v : String)
    (hf : ∀ op, f2 (op.withLabelValue v) = f1 op) (job : Job) (s : Store) :
    (storePlatform f2).DeleteJob (job.withLabelValue v) (s.withLabelValue v) =
      (((storePlatform f1).DeleteJob job s).1,
        ((storePlatform f1).DeleteJob job s).2.withLabelValue v) := by
  have h := hf (.deleteJob job)
  simp only [Op.withLabelValue] at h
  simp only [storePlatform, h, deleteJob_withLabelValue]
  cases f1 (.deleteJob job) <;> rfl

theorem deletePods_relabel (r1 r2 : Platform Store) (v : String)
    (hdp : ∀ pod s, r2.DeletePod pod (s.withLabelValue v) =
      ((r1.DeletePod pod s).1, (r1.DeletePod pod s).2.withLabelValue v))
    (pods : List Pod) (s : Store) :
    JobCleanupReconciler.deletePods r2 pods (s.withLabelValue v) =
      ((JobCleanupReconciler.deletePods r1 pods s).1,
        (JobCleanupReconciler.deletePods r1 pods s).2.1,
        (JobCleanupReconciler.deletePods r1 pods s).2.2.withLabelValue v) := by
  induction pods generalizing s with
  | nil => rfl
  | cons pod rest ih =>
    simp only [JobCleanupReconciler.deletePods, hdp]
    rcases hd : r1.DeletePod pod s with ⟨e, t⟩
    cases e with
    | some err => rfl
    | none =>
      simp only [ih t]

theorem deletePods_ops_withLabelValue {σ : Type} (r : Platform σ) (v : String)
    (pods : List Pod) (s : σ) :
    (JobCleanupReconciler.deletePods r pods s).2.1.map (Op.withLabelValue v) =
      (JobCleanupReconciler.deletePods r pods s).2.1 := by
  have h := deletePods_ops r pods s
  generalize (JobCleanupReconciler.deletePods r pods s).2.1 = ops at h
  induction ops with
  | nil => rfl
  | cons op rest ih =>
    obtain ⟨pod, hp⟩ := h op (List.mem_cons_self _ _)
    subst hp
    simp only [List.map_cons, Op.withLabelValue, List.cons.injEq, true_and]
    exact ih fun o ho => h o (List.mem_cons_of_mem _ ho)

theorem deleteJob_relabel (r1 r2 : Platform Store) (v : String)
    (hdj : ∀ job s, r2.DeleteJob (job.withLabelValue v) (s.withLabelValue v) =
      ((r1.DeleteJob job s).1, (r1.DeleteJob job s).2.withLabelValue v))
    (job : Job) (issued : List Op) (s : Store) :
    JobCleanupReconciler.deleteJob r2 (job.withLabelValue v)
        (issued.map (Op.withLabelValue v)) (s.withLabelValue v) =
      (JobCleanupReconciler.deleteJob r1 job issued s).withLabelValue v := by
  simp only [JobCleanupReconciler.deleteJob, hdj]
  rcases hd : r1.DeleteJob job s with ⟨e, t⟩
  cases e with
  | none => simp [Outcome.withLabelValue, Op.withLabelValue]
  | some err =>
    by_cases hnf : errors.IsNotFound err = true
    · simp [hnf, Outcome.withLabelValue, Op.withLabelValue]
    · simp [hnf, Outcome.withLabelValue, Op.withLabelValue]

/-- The collector over two platforms that answer alike up to the value of the
management label behaves alike up to that value. -/
theorem collector_relabel (r1 r2 : Platform Store) (v : String)
    (hgj : ∀ key s, r2.GetJob key (s.withLabelValue v) =
      match r1.GetJob key s with
      | (.ok job, t) => (.ok (job.withLabelValue v), t.withLabelValue v)
      | (.error e, t) => (.error e, t.withLabelValue v))
    (hsel : r2.LabelSelectorAsSelector = r1.LabelSelectorAsSelector)
    (hlp : ∀ opts s, r2.ListPods opts (s.withLabelValue v) =
      ((r1.ListPods opts s).1, (r1.ListPods opts s).2.withLabelValue v))
    (hdp : ∀ pod s, r2.DeletePod pod (s.withLabelValue v) =
      ((r1.DeletePod pod s).1, (r1.DeletePod pod s).2.withLabelValue v))
    (huj : ∀ job s, r2.UpdateJob (job.withLabelValue v) (s.withLabelValue v) =
      ((r1.UpdateJob job s).1, (r1.UpdateJob job s).2.withLabelValue v))
    (hdj : ∀ job s, r2.DeleteJob (job.withLabelValue v) (s.withLabelValue v) =
      ((r1.DeleteJob job s).1, (r1.DeleteJob job s).2.withLabelValue v))
    (req : Request) (s : Store) :
    JobCleanupReconciler.Reconcile r2 req (s.withLabelValue v) =
      (JobCleanupReconciler.Reconcile r1 req s).withLabelValue v := by
  have hget2 := hgj req.NamespacedName s
  rcases hget1 : r1.GetJob req.NamespacedName s with ⟨res, t⟩
  rw [hget1] at hget2
  cases res with
  | error e =>
    simp only at hget2
    unfold JobCleanupReconciler.Reconcile
    rw [hget1, hget2]
    by_cases hnf : errors.IsNotFound e = true
    · simp [hnf, Outcome.withLabelValue, Op.withLabelValue]
    · simp [hnf, Outcome.withLabelValue, Op.withLabelValue]
  | ok job =>
    simp only at hget2
    by_cases hlabel : (mapLookup job.Labels "backup-database").isNone = true
    · have hlabel2 := (withLabelValue_isNone v job).trans hlabel
      unfold JobCleanupReconciler.Reconcile
      rw [hget1, hget2]
      simp [hlabel, hlabel2, Outcome.withLabelValue, Op.withLabelValue]
    · have hlabel2 : ¬ (mapLookup (job.withLabelValue v).Labels "backup-database").isNone
          = true := by
        rw [withLabelValue_isNone]
        exact hlabel
      have hstatus : (job.withLabelValue v).Status = job.Status := rfl
      have hfinal : (job.withLabelValue v).Finalizers = job.Finalizers := rfl
      have hname : (job.withLabelValue v).Name = job.Name := rfl
      have hns : (job.withLabelValue v).Namespace = job.Namespace := rfl
      have hset : (job.withLabelValue v).SetFinalizers [] =
          (job.SetFinalizers []).withLabelValue v := rfl
      by_cases hfin : job.Status.Succeeded > 0 ∨ job.Status.Failed > 0
      · by_cases hlen : job.Finalizers.length > 0
        · unfold JobCleanupReconciler.Reconcile
          rw [hget1, hget2]
          simp only [hlabel, hlabel2, hstatus, hfinal, if_pos hfin, if_pos hlen, if_false,
            Bool.false_eq_true, hname, hns, hset, hsel]
          cases hs : r1.LabelSelectorAsSelector { MatchLabels := [("job-name", job.Name)] } with
          | error e => simp [Outcome.withLabelValue, Op.withLabelValue]
          | ok selector =>
            simp only [hlp]
            rcases hlist : r1.ListPods
              { LabelSelector := selector, Namespace := job.Namespace } t with ⟨lres, t2⟩
            cases lres with
            | error e => simp [Outcome.withLabelValue, Op.withLabelValue]
            | ok pods =>
              simp only [deletePods_relabel r1 r2 v hdp]
              have hops := deletePods_ops_withLabelValue r1 v pods t2
              rcases hdel : JobCleanupReconciler.deletePods r1 pods t2 with ⟨ed, ops, t3⟩
              rw [hdel] at hops
              simp only at hops
              cases ed with
              | some e =>
                simp [Outcome.withLabelValue, Op.withLabelValue, hops]
              | none =>
                simp only [huj]
                rcases hupd : r1.UpdateJob (job.SetFinalizers []) t3 with ⟨eu, t4⟩
                cases eu with
                | some e =>
                  simp [Outcome.withLabelValue, Op.withLabelValue, hops]
                | none =>
                  simp only
                  rw [← deleteJob_relabel r1 r2 v hdj]
                  simp [Op.withLabelValue, hops]
        · unfold JobCleanupReconciler.Reconcile
          rw [hget1, hget2]
          simp only [hlabel, hlabel2, hstatus, hfinal, if_pos hfin, if_neg hlen, if_false,
            Bool.false_eq_true]
          rw [← deleteJob_relabel r1 r2 v hdj]
          simp [Op.withLabelValue]
      · unfold JobCleanupReconciler.Reconcile
        rw [hget1, hget2]
        simp [hlabel, hlabel2, hstatus, if_neg hfin, Outcome.withLabelValue,
          Op.withLabelValue]

/-- C9: over the abstract store, under any fault schedule that does not look at
the value of the label "backup-database", relabelling the stored jobs with any
value `v` of that label (the key stays) changes neither the result nor the
error of the reconcile; the calls issued are the same calls with the job
argument relabelled, and the store left is the relabelled store. -/
theorem collector_label_value_irrelevant (f1 f2 : Faults) (v : String) (req : Request)
    (s : Store) (hf : ∀ op, f2 (op.withLabelValue v) = f1 op) :
    (JobCleanupReconciler.Reconcile (storePlatform f2) req (s.withLabelValue v)).result =
        (JobCleanupReconciler.Reconcile (storePlatform f1) req s).result ∧
      (JobCleanupReconciler.Reconcile (storePlatform f2) req (s.withLabelValue v)).err =
        (JobCleanupReconciler.Reconcile (storePlatform f1) req s).err ∧
      (JobCleanupReconciler.Reconcile (storePlatform f2) req (s.withLabelValue v)).trace =
        (JobCleanupReconciler.Reconcile (storePlatform f1) req s).trace.map
          (Op.withLabelValue v) ∧
      (JobCleanupReconciler.Reconcile (storePlatform f2) req (s.withLabelValue v)).state =
        (JobCleanupReconciler.Reconcile (storePlatform f1) req s).state.withLabelValue v := by
  have h := collector_relabel (storePlatform f1) (storePlatform f2) v
    (platform_getJob_withLabelValue f1 f2 v hf) rfl
    (platform_listPods_withLabelValue f1 f2 v hf)
    (platform_deletePod_withLabelValue f1 f2 v hf)
    (platform_updateJob_withLabelValue f1 f2 v hf)
    (platform_deleteJob_withLabelValue f1 f2 v hf) req s
  rw [h]
  exact ⟨rfl, rfl, rfl, rfl⟩

/-- The failed job labelled backup-database="false" is torn down and deleted
like the one labelled "true". -/
theorem collector_label_value_irrelevant_witness :
    (storeFailedJob.withLabelValue "false").jobs.map (fun j => j.Labels) =
        [[("backup-database", "false")]] ∧
      (JobCleanupReconciler.Reconcile (storePlatform noFaults) jobRequest
        (storeFailedJob.withLabelValue "false")).trace =
        (JobCleanupReconciler.Reconcile (storePlatform noFaults) jobRequest
          storeFailedJob).trace.map (Op.withLabelValue "false") ∧
      (JobCleanupReconciler.Reconcile (storePlatform noFaults) jobRequest
        (storeFailedJob.withLabelValue "false")).state = { jobs := [], pods := [] } :=
  ⟨rfl,
    (collector_label_value_irrelevant noFaults noFaults "false" jobRequest storeFailedJob
      (fun _ => rfl)).2.2.1,
    rfl⟩

/-! ## Resuming an interrupted teardown -/

theorem store_deletePod_state (t : Store) (pod : Pod) :
    (t.deletePod pod).2 =
      { t with pods := t.pods.filter fun p => decide (p.key ≠ pod.key) } := by
  unfold Store.deletePod
  split
  · rfl
  · rename_i h
    have hself : (t.pods.filter fun p => decide (p.key ≠ pod.key)) = t.pods := by
      rw [List.filter_eq_self]
      intro p hp
      simp only [List.any_eq_true, decide_eq_true_eq, not_exists, not_and] at h
      simpa using h p hp
    simp only [hself]

theorem filter_key_cons (pods : List Pod) (key : NamespacedName) (keys : List NamespacedName) :
    (pods.filter fun p => decide (p.key ≠ key)).filter (fun p => decide (p.key ∉ keys)) =
      pods.filter fun p => decide (p.key ∉ key :: keys) := by
  rw [List.filter_filter]
  apply List.filter_congr
  intro p _
  by_cases h1 : p.key = key <;> by_cases h2 : p.key ∈ keys <;> simp [h1, h2]

theorem applyOps_deletePods (L : List Pod) (t : Store) :
    applyOps (L.map Op.deletePod) t =
      { t with pods := t.pods.filter fun p => decide (p.key ∉ L.map Pod.key) } := by
  induction L generalizing t with
  | nil => simp [applyOps]
  | cons pod rest ih =>
    simp only [applyOps, List.map_cons, List.foldl_cons, applyOp] at ih ⊢
    rw [ih, store_deletePod_state]
    simp only [filter_key_cons]

theorem key_eq_of_nodup {pods : List Pod} (h : (pods.map Pod.key).Nodup) {p q : Pod}
    (hp : p ∈ pods) (hq : q ∈ pods) (hk : p.key = q.key) : p = q :=
  List.inj_on_of_nodup_map h hp hq hk

theorem store_deletePods (L : List Pod) (t : Store)
    (hmem : ∀ p ∈ L, p ∈ t.pods) (hnodup : (L.map Pod.key).Nodup) :
    JobCleanupReconciler.deletePods (storePlatform noFaults) L t =
      (none, L.map Op.deletePod,
        { t with pods := t.pods.filter fun p => decide (p.key ∉ L.map Pod.key) }) := by
  induction L generalizing t with
  | nil => simp [JobCleanupReconciler.deletePods]
  | cons pod rest ih =>
    have hany : (t.pods.any fun p => decide (p.key = pod.key)) = true := by
      simp only [List.any_eq_true, decide_eq_true_eq]
      exact ⟨pod, hmem pod (List.mem_cons_self _ _), rfl⟩
    have hdel : (storePlatform noFaults).DeletePod pod t =
        (none, { t with pods := t.pods.filter fun p => decide (p.key ≠ pod.key) }) := by
      simp only [storePlatform, noFaults, Store.deletePod, hany, ↓reduceIte]
    simp only [List.map_cons, List.nodup_cons] at hnodup
    have hrest : ∀ q ∈ rest,
        q ∈ ({ t with pods := t.pods.filter fun p => decide (p.key ≠ pod.key) } : Store).pods := by
      intro q hq
      simp only [List.mem_filter, decide_eq_true_eq]
      refine ⟨hmem q (List.mem_cons_of_mem _ hq), ?_⟩
      intro hk
      exact hnodup.1 (hk ▸ List.mem_map_of_mem Pod.key hq)
    simp only [JobCleanupReconciler.deletePods, hdel, ih _ hrest hnodup.2, List.map_cons,
      filter_key_cons]

theorem filter_keys_eq_filter_not (pods : List Pod) (q : Pod → Bool) (L0 : List Pod)
    (hnodup : (pods.map Pod.key).Nodup) (hsub : ∀ p ∈ L0, p ∈ pods ∧ q p = true) :
    (pods.filter fun p => decide (p.key ∉ L0.map Pod.key)).filter (fun p => !q p) =
      pods.filter fun p => !q p := by
  rw [List.filter_filter]
  apply List.filter_congr
  intro p hp
  by_cases hq : q p = true
  · simp [hq]
  · have hnot : p.key ∉ L0.map Pod.key := by
      intro hmem
      simp only [List.mem_map] at hmem
      obtain ⟨x, hx, hk⟩ := hmem
      have := key_eq_of_nodup hnodup (hsub x hx).1 hp hk
      subst this
      exact hq (hsub x hx).2
    simp [hq, hnot]

theorem filter_keys_all (pods : List Pod) (q : Pod → Bool)
    (hnodup : (pods.map Pod.key).Nodup) :
    (pods.filter fun p => decide (p.key ∉ (pods.filter q).map Pod.key)) =
      pods.filter fun p => !q p := by
  apply List.filter_congr
  intro p hp
  by_cases hq : q p = true
  · have hin : p.key ∈ (pods.filter q).map Pod.key :=
      List.mem_map_of_mem Pod.key (List.mem_filter.mpr ⟨hp, hq⟩)
    simp [hq, hin]
  · have hnot : p.key ∉ (pods.filter q).map Pod.key := by
      intro hmem
      simp only [List.mem_map] at hmem
      obtain ⟨x, hx, hk⟩ := hmem
      have hx2 := List.mem_filter.mp hx
      have := key_eq_of_nodup hnodup hx2.1 hp hk
      subst this
      exact hq hx2.2
    simp [hq, hnot]

theorem find_job_replace (jobs : List Job) (key : NamespacedName) (job new : Job)
    (hfind : jobs.find? (fun j => decide (j.key = key)) = some job)
    (hkey : new.key = key) :
    (jobs.map fun j => if j.key = key then new else j).find?
      (fun j => decide (j.key = key)) = some new := by
  induction jobs with
  | nil => simp at hfind
  | cons j rest ih =>
    by_cases hj : j.key = key
    · simp [hj, hkey]
    · simp only [List.find?_cons, hj, decide_False] at hfind
      simp [hj, ih hfind]

theorem filter_job_replace (jobs : List Job) (key : NamespacedName) (new : Job)
    (hkey : new.key = key) :
    (jobs.map fun j => if j.key = key then new else j).filter
      (fun j => decide (j.key ≠ key)) = jobs.filter fun j => decide (j.key ≠ key) := by
  induction jobs with
  | nil => rfl
  | cons j rest ih =>
    by_cases hj : j.key = key
    · simpa [hj, hkey] using ih
    · simpa [hj] using ih

theorem find_job_filter_none (jobs : List Job) (key : NamespacedName) :
    (jobs.filter fun j => decide (j.key ≠ key)).find? (fun j => decide (j.key = key)) =
      none := by
  simp only [List.find?_eq_none, List.mem_filter, decide_eq_true_eq]
  intro j hj
  simpa using hj.2

theorem listPods_eq_linked (t : Store) (job : Job) :
    t.listPods { LabelSelector := { Requirements := [("job-name", job.Name)] },
                 Namespace := job.Namespace } = t.pods.filter (linked job) := by
  unfold Store.listPods
  apply List.filter_congr
  intro p _
  simp [Selector.Matches, linked]

theorem store_getJob_find (t : Store) (key : NamespacedName) (job : Job)
    (h : t.getJob key = .ok job) :
    t.jobs.find? (fun j => decide (j.key = key)) = some job := by
  unfold Store.getJob at h
  cases hf : t.jobs.find? (fun j => decide (j.key = key)) with
  | none => rw [hf] at h; cases h
  | some j => rw [hf] at h; cases h; rfl

theorem store_reconcile_absent (t : Store) (req : Request)
    (hnone : t.jobs.find? (fun j => decide (j.key = req.NamespacedName)) = none) :
    JobCleanupReconciler.Reconcile (storePlatform noFaults) req t =
      { result := {}, err := none, trace := [Op.getJob req.NamespacedName], state := t } := by
  have hget : (storePlatform noFaults).GetJob req.NamespacedName t =
      (.error (.notFound req.NamespacedName.Name), t) := by
    simp only [storePlatform, noFaults, Store.getJob, hnone]
  unfold JobCleanupReconciler.Reconcile
  rw [hget]
  rfl

theorem store_reconcile_direct (t : Store) (req : Request) (job : Job)
    (hjob : t.jobs.find? (fun j => decide (j.key = req.NamespacedName)) = some job)
    (hlabel : "backup-database" ∈ job.Labels.map Prod.fst)
    (hfin : job.Status.Succeeded > 0 ∨ job.Status.Failed > 0)
    (hguard : job.Finalizers = []) :
    JobCleanupReconciler.Reconcile (storePlatform noFaults) req t =
      { result := {}, err := none,
        trace := [Op.getJob req.NamespacedName, Op.deleteJob job],
        state :=
          { t with jobs := t.jobs.filter fun j => decide (j.key ≠ req.NamespacedName) } } := by
  have hkey : job.key = req.NamespacedName := by
    simpa using List.find?_some hjob
  have hget : (storePlatform noFaults).GetJob req.NamespacedName t = (.ok job, t) := by
    simp only [storePlatform, noFaults, Store.getJob, hjob]
  have hdel : (storePlatform noFaults).DeleteJob job t =
      (none, { t with jobs := t.jobs.filter fun j => decide (j.key ≠ req.NamespacedName) }) := by
    simp only [storePlatform, noFaults, Store.deleteJob, hkey, hjob, hguard, ↓reduceIte]
  rw [collector_direct_unfold _ req t t job hget hlabel hfin hguard]
  unfold JobCleanupReconciler.deleteJob
  rw [hdel]
  rfl

theorem store_reconcile_teardown (t : Store) (req : Request) (job : Job)
    (hpods : (t.pods.map Pod.key).Nodup)
    (hjob : t.jobs.find? (fun j => decide (j.key = req.NamespacedName)) = some job)
    (hlabel : "backup-database" ∈ job.Labels.map Prod.fst)
    (hfin : job.Status.Succeeded > 0 ∨ job.Status.Failed > 0)
    (hguard : job.Finalizers ≠ []) :
    JobCleanupReconciler.Reconcile (storePlatform noFaults) req t =
      { result := {}, err := none,
        trace :=
          [ Op.getJob req.NamespacedName,
            Op.listPods { LabelSelector := { Requirements := [("job-name", job.Name)] },
                          Namespace := job.Namespace } ] ++
          (t.pods.filter (linked job)).map Op.deletePod ++
          [ Op.updateJob { job with Finalizers := [] },
            Op.deleteJob { job with Finalizers := [] } ],
        state :=
          { t with
            pods := t.pods.filter fun p => !linked job p,
            jobs := t.jobs.filter fun j => decide (j.key ≠ req.NamespacedName) } } := by
  have hkey : job.key = req.NamespacedName := by
    simpa using List.find?_some hjob
  have hkey1 : ({ job with Finalizers := [] } : Job).key = req.NamespacedName := hkey
  have hget : (storePlatform noFaults).GetJob req.NamespacedName t = (.ok job, t) := by
    simp only [storePlatform, noFaults, Store.getJob, hjob]
  have hsel : (storePlatform noFaults).LabelSelectorAsSelector
      { MatchLabels := [("job-name", job.Name)] } =
      .ok { Requirements := [("job-name", job.Name)] } := rfl
  have hlist : (storePlatform noFaults).ListPods
      { LabelSelector := { Requirements := [("job-name", job.Name)] },
        Namespace := job.Namespace } t = (.ok (t.pods.filter (linked job)), t) := by
    simp only [storePlatform, noFaults, listPods_eq_linked]
  have hdp := store_deletePods (t.pods.filter (linked job)) t
    (fun p hp => (List.mem_filter.mp hp).1)
    (hpods.sublist ((List.filter_sublist t.pods).map Pod.key))
  rw [filter_keys_all t.pods (linked job) hpods] at hdp
  have hany : (t.jobs.any fun j => decide (j.key = req.NamespacedName)) = true := by
    simp only [List.any_eq_true, decide_eq_true_eq]
    exact ⟨job, List.mem_of_find?_eq_some hjob, hkey⟩
  have hupd : ∀ (pods : List Pod), (storePlatform noFaults).UpdateJob
      { job with Finalizers := [] } { t with pods := pods } =
      (none, { t with
        pods := pods,
        jobs := t.jobs.map fun j =>
          if j.key = req.NamespacedName then { job with Finalizers := [] } else j }) := by
    intro pods
    simp only [storePlatform, noFaults, Store.updateJob, hkey1, hany, ↓reduceIte]
  have hdel : ∀ (pods : List Pod), (storePlatform noFaults).DeleteJob
      { job with Finalizers := [] }
      { t with
        pods := pods,
        jobs := t.jobs.map fun j =>
          if j.key = req.NamespacedName then { job with Finalizers := [] } else j } =
      (none, { t with
        pods := pods,
        jobs := t.jobs.filter fun j => decide (j.key ≠ req.NamespacedName) }) := by
    intro pods
    simp only [storePlatform, noFaults, Store.deleteJob, hkey1,
      find_job_replace t.jobs req.NamespacedName job _ hjob hkey1, ↓reduceIte,
      filter_job_replace t.jobs req.NamespacedName _ hkey1]
  rw [collector_teardown_unfold _ req t t job hget hlabel hfin hguard, hsel]
  simp only [hlist, hdp, hupd]
  unfold JobCleanupReconciler.deleteJob
  rw [hdel]
  simp

theorem deleted_deletePods (L : List Pod) :
    (L.map Op.deletePod).filterMap Op.deleted = L.map fun p => ("Pod", p.key) := by
  induction L with
  | nil => rfl
  | cons p rest ih => simp [Op.deleted, ih]

theorem nodup_deletions (A B : List Pod) (key : NamespacedName)
    (hA : (A.map Pod.key).Nodup) (hB : (B.map Pod.key).Nodup)
    (hdisj : ∀ p ∈ B, p.key ∉ A.map Pod.key) :
    ((A.map fun p => ("Pod", p.key)) ++
      ((B.map fun p => ("Pod", p.key)) ++ [("Job", key)])).Nodup := by
  have hinj : Function.Injective (fun k : NamespacedName => ("Pod", k)) := by
    intro a b h
    exact (Prod.mk.injEq _ _ _ _ ▸ h).2
  have hA2 : (A.map fun p => ("Pod", p.key)).Nodup := by
    have := hA.map hinj
    simpa [List.map_map] using this
  have hB2 : (B.map fun p => ("Pod", p.key)).Nodup := by
    have := hB.map hinj
    simpa [List.map_map] using this
  rw [List.nodup_append]
  refine ⟨hA2, ?_, ?_⟩
  · rw [List.nodup_append]
    refine ⟨hB2, List.nodup_singleton _, ?_⟩
    intro x hx hx2
    simp only [List.mem_map] at hx
    obtain ⟨p, _, hp⟩ := hx
    simp only [List.mem_singleton] at hx2
    rw [hx2] at hp
    simp at hp
  · intro x hx hx2
    simp only [List.mem_map] at hx
    obtain ⟨p, hpA, hp⟩ := hx
    simp only [List.mem_append, List.mem_map, List.mem_singleton] at hx2
    rcases hx2 with ⟨q, hqB, hq⟩ | hjob
    · apply hdisj q hqB
      rw [← hp] at hq
      simp only [Prod.mk.injEq, true_and] at hq
      rw [hq]
      exact List.mem_map_of_mem Pod.key hpA
    · rw [hjob] at hp
      simp at hp

/-- Resuming after the pods `L0` among the linked pods have been deleted. -/
theorem resume_after_pod_deletes (s : Store) (req : Request) (job : Job)
    (hpods : (s.pods.map Pod.key).Nodup)
    (hjob : s.jobs.find? (fun j => decide (j.key = req.NamespacedName)) = some job)
    (hlabel : "backup-database" ∈ job.Labels.map Prod.fst)
    (hfin : job.Status.Succeeded > 0 ∨ job.Status.Failed > 0)
    (hguard : job.Finalizers ≠ [])
    (L0 : List Pod) (hsub : L0.Sublist (s.pods.filter (linked job))) :
    (JobCleanupReconciler.Reconcile (storePlatform noFaults) req
        (applyOps (L0.map Op.deletePod) s)).err = none ∧
      (JobCleanupReconciler.Reconcile (storePlatform noFaults) req
        (applyOps (L0.map Op.deletePod) s)).state =
        { s with
          pods := s.pods.filter fun p => !linked job p,
          jobs := s.jobs.filter fun j => decide (j.key ≠ req.NamespacedName) } ∧
      ((L0.map Op.deletePod ++
        (JobCleanupReconciler.Reconcile (storePlatform noFaults) req
          (applyOps (L0.map Op.deletePod) s)).trace).filterMap Op.deleted).Nodup := by
  rw [applyOps_deletePods]
  have hsubpods : (s.pods.filter fun p => decide (p.key ∉ L0.map Pod.key)).Sublist s.pods :=
    List.filter_sublist _
  have hpods0 : ((s.pods.filter fun p => decide (p.key ∉ L0.map Pod.key)).map Pod.key).Nodup :=
    hpods.sublist (hsubpods.map Pod.key)
  have hmem0 : ∀ p ∈ L0, p ∈ s.pods ∧ linked job p = true := by
    intro p hp
    exact List.mem_filter.mp (hsub.subset hp)
  have hrun := store_reconcile_teardown
    { s with pods := s.pods.filter fun p => decide (p.key ∉ L0.map Pod.key) } req job
    hpods0 hjob hlabel hfin hguard
  simp only at hrun
  rw [hrun]
  refine ⟨rfl, ?_, ?_⟩
  · simp only [filter_keys_eq_filter_not s.pods (linked job) L0 hpods hmem0]
  · have hkeysL0 : (L0.map Pod.key).Nodup :=
      hpods.sublist ((hsub.trans (List.filter_sublist _)).map Pod.key)
    have hrest : (((s.pods.filter fun p => decide (p.key ∉ L0.map Pod.key)).filter
        (linked job)).map Pod.key).Nodup :=
      hpods0.sublist ((List.filter_sublist _).map Pod.key)
    have hnd := nodup_deletions L0
      ((s.pods.filter fun p => decide (p.key ∉ L0.map Pod.key)).filter (linked job))
      req.NamespacedName hkeysL0 hrest (by
        intro p hp
        have := (List.mem_filter.mp (List.mem_filter.mp hp).1).2
        simpa using this)
    have hkey : job.key = req.NamespacedName := by
      simpa using List.find?_some hjob
    have hkey1 : ({ job with Finalizers := [] } : Job).key = req.NamespacedName := hkey
    simp only [List.filterMap_append, deleted_deletePods, List.filterMap_cons, Op.deleted,
      List.filterMap_nil, List.nil_append, hkey1]
    exact hnd

theorem applyOps_append (a b : List Op) (s : Store) :
    applyOps (a ++ b) s = applyOps b (applyOps a s) := by
  simp [applyOps, List.foldl_append]

/-- The stores reached after the guard is cleared and after the job is deleted. -/
theorem applyOps_teardown_tail (s : Store) (req : Request) (job : Job)
    (hpods : (s.pods.map Pod.key).Nodup)
    (hjob : s.jobs.find? (fun j => decide (j.key = req.NamespacedName)) = some job) :
    applyOps ((s.pods.filter (linked job)).map Op.deletePod ++
        [Op.updateJob { job with Finalizers := [] }]) s =
      { s with
        pods := s.pods.filter fun p => !linked job p,
        jobs := s.jobs.map fun j =>
          if j.key = req.NamespacedName then { job with Finalizers := [] } else j } ∧
    applyOps ((s.pods.filter (linked job)).map Op.deletePod ++
        [Op.updateJob { job with Finalizers := [] },
         Op.deleteJob { job with Finalizers := [] }]) s =
      { s with
        pods := s.pods.filter fun p => !linked job p,
        jobs := s.jobs.filter fun j => decide (j.key ≠ req.NamespacedName) } := by
  have hkey : job.key = req.NamespacedName := by
    simpa using List.find?_some hjob
  have hkey1 : ({ job with Finalizers := [] } : Job).key = req.NamespacedName := hkey
  have hany : (s.jobs.any fun j => decide (j.key = req.NamespacedName)) = true := by
    simp only [List.any_eq_true, decide_eq_true_eq]
    exact ⟨job, List.mem_of_find?_eq_some hjob, hkey⟩
  constructor
  · rw [applyOps_append, applyOps_deletePods, filter_keys_all s.pods (linked job) hpods]
    simp only [applyOps, List.foldl_cons, List.foldl_nil, applyOp, Store.updateJob, hkey1,
      hany, ↓reduceIte]
  · rw [applyOps_append, applyOps_deletePods, filter_keys_all s.pods (linked job) hpods]
    simp only [applyOps, List.foldl_cons, List.foldl_nil, applyOp, Store.updateJob,
      Store.deleteJob, hkey1, hany, ↓reduceIte,
      find_job_replace s.jobs req.NamespacedName job _ hjob hkey1,
      filter_job_replace s.jobs req.NamespacedName _ hkey1]

theorem take_teardown_tail (A : List Op) (u d : Op) (m : Nat) :
    (∃ L0, L0 = A.take m ∧ (A ++ [u, d]).take m = L0) ∨
      (A ++ [u, d]).take m = A ++ [u] ∨ (A ++ [u, d]).take m = A ++ [u, d] := by
  rw [List.take_append_eq_append_take]
  rcases hm : m - A.length with _ | _ | j
  · left
    exact ⟨A.take m, rfl, by simp⟩
  · right; left
    rw [List.take_of_length_le (by omega)]
    rfl
  · right; right
    rw [List.take_of_length_le (by omega)]
    simp

/-- C7 as stated fails: the store holds the labelled failed job without
finalizer and its two linked pods, with distinct keys. The uninterrupted
reconcile, and the reconcile run again after an interruption after the first
call, end in the same store, which no longer holds the job but still holds both
linked pods: the linked pods are not absent. -/
theorem collector_resume_unguarded_keeps_pods :
    (storeUnguardedJob.pods.map Pod.key).Nodup ∧
      storeUnguardedJob.getJob jobRequest.NamespacedName = .ok unguardedJob ∧
      "backup-database" ∈ unguardedJob.Labels.map Prod.fst ∧
      unguardedJob.Status.Failed > 0 ∧
      (JobCleanupReconciler.Reconcile (storePlatform noFaults) jobRequest
        storeUnguardedJob).state =
        { jobs := [], pods := [samplePod "pod-a", samplePod "pod-b"] } ∧
      (JobCleanupReconciler.Reconcile (storePlatform noFaults) jobRequest
        (interrupted jobRequest 1 storeUnguardedJob)).state =
        { jobs := [], pods := [samplePod "pod-a", samplePod "pod-b"] } ∧
      (JobCleanupReconciler.Reconcile (storePlatform noFaults) jobRequest
        (interrupted jobRequest 1 storeUnguardedJob)).state.pods.filter
          (linked unguardedJob) = [samplePod "pod-a", samplePod "pod-b"] ∧
      ¬ (∀ p ∈ (JobCleanupReconciler.Reconcile (storePlatform noFaults) jobRequest
          (interrupted jobRequest 1 storeUnguardedJob)).state.pods,
        linked unguardedJob p = false) := by
  refine ⟨by decide, rfl, by decide, by decide, rfl, rfl, rfl, ?_⟩
  intro h
  have hstate : (JobCleanupReconciler.Reconcile (storePlatform noFaults) jobRequest
      (interrupted jobRequest 1 storeUnguardedJob)).state.pods =
      [samplePod "pod-a", samplePod "pod-b"] := rfl
  rw [hstate] at h
  have hpod := h (samplePod "pod-a") (List.mem_cons_self _ _)
  have hlinked : linked unguardedJob (samplePod "pod-a") = true := by decide
  rw [hlinked] at hpod
  cases hpod

/-- C7, amended: over the abstract store (without faults) holding a labelled,
finished job and pods with distinct keys, interrupt the collector's reconcile
after any number `k` of its client calls and run it again from scratch on the
store reached: the second run returns no error and ends in the same store as
one uninterrupted reconcile; no pod and no job is deleted twice across the
calls that took effect and the second run; the final store does not hold the
job; when the job carried at least one finalizer it holds no linked pod, and
when the job carried none the pods are left as they were. -/
theorem collector_resume_converges (s : Store) (req : Request) (job : Job) (k : Nat)
    (hpods : (s.pods.map Pod.key).Nodup)
    (hstored : s.getJob req.NamespacedName = .ok job)
    (hlabel : "backup-database" ∈ job.Labels.map Prod.fst)
    (hfin : job.Status.Succeeded > 0 ∨ job.Status.Failed > 0) :
    (JobCleanupReconciler.Reconcile (storePlatform noFaults) req
        (interrupted req k s)).err = none ∧
      (JobCleanupReconciler.Reconcile (storePlatform noFaults) req
        (interrupted req k s)).state =
        (JobCleanupReconciler.Reconcile (storePlatform noFaults) req s).state ∧
      (((JobCleanupReconciler.Reconcile (storePlatform noFaults) req s).trace.take k ++
        (JobCleanupReconciler.Reconcile (storePlatform noFaults) req
          (interrupted req k s)).trace).filterMap Op.deleted).Nodup ∧
      (∀ j ∈ (JobCleanupReconciler.Reconcile (storePlatform noFaults) req s).state.jobs,
        j.key ≠ req.NamespacedName) ∧
      (job.Finalizers ≠ [] →
        ∀ p ∈ (JobCleanupReconciler.Reconcile (storePlatform noFaults) req s).state.pods,
          linked job p = false) ∧
      (job.Finalizers = [] →
        (JobCleanupReconciler.Reconcile (storePlatform noFaults) req s).state.pods =
          s.pods) := by
  have hjob := store_getJob_find s req.NamespacedName job hstored
  have hkey : job.key = req.NamespacedName := by
    simpa using List.find?_some hjob
  have habsent : ∀ j ∈ s.jobs.filter (fun j => decide (j.key ≠ req.NamespacedName)),
      j.key ≠ req.NamespacedName := by
    intro j hj
    simpa using (List.mem_filter.mp hj).2
  unfold interrupted
  by_cases hguard : job.Finalizers = []
  · -- no finalizer: the job is deleted directly
    have hfull := store_reconcile_direct s req job hjob hlabel hfin hguard
    have hlast : applyOps [Op.getJob req.NamespacedName, Op.deleteJob job] s =
        { s with jobs := s.jobs.filter fun j => decide (j.key ≠ req.NamespacedName) } := by
      simp only [applyOps, List.foldl_cons, List.foldl_nil, applyOp, Store.deleteJob, hkey,
        hjob, hguard, ↓reduceIte]
    have hfirst : applyOps [Op.getJob req.NamespacedName] s = s := rfl
    have hnone : applyOps [] s = s := rfl
    have main :
        (JobCleanupReconciler.Reconcile (storePlatform noFaults) req
          (applyOps (List.take k [Op.getJob req.NamespacedName, Op.deleteJob job]) s)).err =
          none ∧
        (JobCleanupReconciler.Reconcile (storePlatform noFaults) req
          (applyOps (List.take k [Op.getJob req.NamespacedName, Op.deleteJob job]) s)).state =
          { s with jobs := s.jobs.filter fun j => decide (j.key ≠ req.NamespacedName) } ∧
        ((List.take k [Op.getJob req.NamespacedName, Op.deleteJob job] ++
          (JobCleanupReconciler.Reconcile (storePlatform noFaults) req
            (applyOps (List.take k [Op.getJob req.NamespacedName, Op.deleteJob job])
              s)).trace).filterMap Op.deleted).Nodup := by
      rcases k with _ | _ | m
      · simp only [List.take_zero, hnone, hfull, List.nil_append]
        simp [Op.deleted]
      · simp only [List.take_succ_cons, List.take_zero, hfirst, hfull]
        simp [Op.deleted]
      · simp only [List.take_succ_cons, List.take_nil, hlast]
        rw [store_reconcile_absent _ req (find_job_filter_none s.jobs req.NamespacedName)]
        simp [Op.deleted]
    rw [hfull]
    exact ⟨main.1, main.2.1, main.2.2, habsent, fun h => absurd hguard h, fun _ => rfl⟩
  · -- a finalizer: the two-phase teardown
    have hfull := store_reconcile_teardown s req job hpods hjob hlabel hfin hguard
    have htail := applyOps_teardown_tail s req job hpods hjob
    have hkey1 : ({ job with Finalizers := [] } : Job).key = req.NamespacedName := hkey
    have hkeysL : ((s.pods.filter (linked job)).map Pod.key).Nodup :=
      hpods.sublist ((List.filter_sublist _).map Pod.key)
    have hdone := nodup_deletions (s.pods.filter (linked job)) [] req.NamespacedName hkeysL
      (by simp) (by simp)
    simp only [List.map_nil, List.nil_append] at hdone
    have hlinked : ∀ p ∈ s.pods.filter (fun p => !linked job p), linked job p = false := by
      intro p hp
      simpa using (List.mem_filter.mp hp).2
    have hnone : applyOps [] s = s := rfl
    have hfirst : applyOps [Op.getJob req.NamespacedName] s = s := rfl
    have happ : ∀ X : List Op,
        applyOps (Op.getJob req.NamespacedName ::
          Op.listPods { LabelSelector := { Requirements := [("job-name", job.Name)] },
                        Namespace := job.Namespace } :: X) s = applyOps X s := by
      intro X
      simp [applyOps, applyOp]
    have hdelfull : ((JobCleanupReconciler.Reconcile (storePlatform noFaults) req
        s).trace.filterMap Op.deleted).Nodup := by
      rw [hfull]
      simp only [List.filterMap_append, List.filterMap_cons, List.filterMap_nil,
            deleted_deletePods, Op.deleted, hkey1, List.append_nil, List.nil_append,
            List.cons_append, List.append_assoc]
      exact hdone
    have main :
        (JobCleanupReconciler.Reconcile (storePlatform noFaults) req
          (applyOps (List.take k
            (JobCleanupReconciler.Reconcile (storePlatform noFaults) req s).trace) s)).err =
          none ∧
        (JobCleanupReconciler.Reconcile (storePlatform noFaults) req
          (applyOps (List.take k
            (JobCleanupReconciler.Reconcile (storePlatform noFaults) req s).trace) s)).state =
          { s with
            pods := s.pods.filter fun p => !linked job p,
            jobs := s.jobs.filter fun j => decide (j.key ≠ req.NamespacedName) } ∧
        ((List.take k (JobCleanupReconciler.Reconcile (storePlatform noFaults) req s).trace ++
          (JobCleanupReconciler.Reconcile (storePlatform noFaults) req
            (applyOps (List.take k
              (JobCleanupReconciler.Reconcile (storePlatform noFaults) req s).trace)
              s)).trace).filterMap Op.deleted).Nodup := by
      rcases k with _ | _ | m
      · simp only [List.take_zero, hnone, List.nil_append]
        refine ⟨?_, ?_, hdelfull⟩
        · rw [hfull]
        · rw [hfull]
      · have htake1 : List.take 1
            (JobCleanupReconciler.Reconcile (storePlatform noFaults) req s).trace =
            [Op.getJob req.NamespacedName] := by
          rw [hfull]
          rfl
        rw [htake1, hfirst]
        refine ⟨?_, ?_, ?_⟩
        · rw [hfull]
        · rw [hfull]
        · simpa [Op.deleted] using hdelfull
      · have htake2 : List.take (m + 2)
            (JobCleanupReconciler.Reconcile (storePlatform noFaults) req s).trace =
            Op.getJob req.NamespacedName ::
              Op.listPods { LabelSelector := { Requirements := [("job-name", job.Name)] },
                            Namespace := job.Namespace } ::
              List.take m ((s.pods.filter (linked job)).map Op.deletePod ++
                [Op.updateJob { job with Finalizers := [] },
                 Op.deleteJob { job with Finalizers := [] }]) := by
          rw [hfull]
          simp [List.take_succ_cons]
        rw [htake2, happ]
        rcases take_teardown_tail ((s.pods.filter (linked job)).map Op.deletePod)
          (Op.updateJob { job with Finalizers := [] })
          (Op.deleteJob { job with Finalizers := [] }) m with ⟨L0, hL0, htake⟩ | htake | htake
        · rw [htake, hL0, ← List.map_take]
          have hres := resume_after_pod_deletes s req job hpods hjob hlabel hfin hguard
            ((s.pods.filter (linked job)).take m) (List.take_sublist _ _)
          refine ⟨hres.1, hres.2.1, ?_⟩
          simpa [Op.deleted] using hres.2.2
        · rw [htake, htail.1]
          have hrun := store_reconcile_direct
            { s with
              pods := s.pods.filter fun p => !linked job p,
              jobs := s.jobs.map fun j =>
                if j.key = req.NamespacedName then { job with Finalizers := [] } else j }
            req { job with Finalizers := [] }
            (find_job_replace s.jobs req.NamespacedName job _ hjob hkey1) hlabel hfin rfl
          simp only at hrun
          rw [hrun]
          refine ⟨rfl, ?_, ?_⟩
          · simp only [filter_job_replace s.jobs req.NamespacedName _ hkey1]
          · simp only [List.filterMap_append, List.filterMap_cons, List.filterMap_nil,
            deleted_deletePods, Op.deleted, hkey1, List.append_nil, List.nil_append,
            List.cons_append, List.append_assoc]
            exact hdone
        · rw [htake, htail.2]
          have hrun := store_reconcile_absent
            { s with
              pods := s.pods.filter fun p => !linked job p,
              jobs := s.jobs.filter fun j => decide (j.key ≠ req.NamespacedName) }
            req (find_job_filter_none s.jobs req.NamespacedName)
          rw [hrun]
          refine ⟨rfl, rfl, ?_⟩
          simp only [List.filterMap_append, List.filterMap_cons, List.filterMap_nil,
            deleted_deletePods, Op.deleted, hkey1, List.append_nil, List.nil_append,
            List.cons_append, List.append_assoc]
          exact hdone
    have hstate : (JobCleanupReconciler.Reconcile (storePlatform noFaults) req s).state =
        { s with
          pods := s.pods.filter fun p => !linked job p,
          jobs := s.jobs.filter fun j => decide (j.key ≠ req.NamespacedName) } := by
      rw [hfull]
    rw [hstate]
    exact ⟨main.1, main.2.1, main.2.2, habsent, fun _ => hlinked,
      fun h => absurd h hguard⟩

/-- The teardown of the failed job with two linked pods, interrupted after the
pod deletions but before the guard is cleared (4 calls) and after the guard is
cleared but before the job delete (5 calls): the second run ends in the empty
store and nothing is deleted twice. -/
theorem collector_resume_converges_witness :
    interrupted jobRequest 4 storeFailedJob = { jobs := [sampleJob 0 0 1], pods := [] } ∧
      interrupted jobRequest 5 storeFailedJob = { jobs := [unguardedJob], pods := [] } ∧
      (JobCleanupReconciler.Reconcile (storePlatform noFaults) jobRequest
        (interrupted jobRequest 4 storeFailedJob)).state =
        (JobCleanupReconciler.Reconcile (storePlatform noFaults) jobRequest
          storeFailedJob).state ∧
      (JobCleanupReconciler.Reconcile (storePlatform noFaults) jobRequest
        (interrupted jobRequest 5 storeFailedJob)).state =
        (JobCleanupReconciler.Reconcile (storePlatform noFaults) jobRequest
          storeFailedJob).state ∧
      (JobCleanupReconciler.Reconcile (storePlatform noFaults) jobRequest
        storeFailedJob).state = { jobs := [], pods := [] } ∧
      (((JobCleanupReconciler.Reconcile (storePlatform noFaults) jobRequest
          storeFailedJob).trace.take 5 ++
        (JobCleanupReconciler.Reconcile (storePlatform noFaults) jobRequest
          (interrupted jobRequest 5 storeFailedJob)).trace).filterMap Op.deleted).Nodup :=
  ⟨rfl, rfl,
    (collector_resume_converges storeFailedJob jobRequest (sampleJob 0 0 1) 4
      (by decide) rfl (by decide) (by decide)).2.1,
    (collector_resume_converges storeFailedJob jobRequest (sampleJob 0 0 1) 5
      (by decide) rfl (by decide) (by decide)).2.1,
    rfl,
    (collector_resume_converges storeFailedJob jobRequest (sampleJob 0 0 1) 5
      (by decide) rfl (by decide) (by decide)).2.2.1⟩

end DbBackupOperator
